import Mathlib

/-!
# Verification of the shoppin-crawler core (src/)

Shallow embedding of the crawl engine of `shadan-asad/shoppin-crawler`:

* `src/utils/url-utils.ts` — URL normalisation (`normalizeUrl`), domain
  comparison (`isSameDomain`), relative resolution (`resolveUrl`) and the
  product-URL pattern list (`commonProductUrlPatterns`,
  `isLikelyProductUrl`);
* `src/crawlers/base-crawler.ts` — the `BaseCrawler` class: the queue loop
  (`processQueue`), per-item processing with retries (`processUrl`),
  link filtering (`processLinks`), error classification
  (`handleCrawlError`), the halt condition (`shouldStopCrawling`) and
  result finalisation (`start` / `saveResults`).

The TypeScript code manipulates WHATWG URLs through Node's `new URL(...)`.
We model the hierarchical fragment of that parser that the crawler
exercises (`scheme://host[/path][?query][#fragment]`, ASCII case mapping,
splitting at the first occurrence of each separator); percent-encoding,
punycode, default-port elision, dot-segment removal and non-special
schemes (`mailto:`) are outside the model.  JavaScript's
`toLowerCase` on the ASCII range coincides with `Char.toLower`, which we
use directly.  All definitions are executable so that concrete runs can
be evaluated inside proofs.
-/

namespace ShoppinCrawler

/-! ## ASCII lower-casing and substring search -/

/-- Lower-case a character list (model of `String.prototype.toLowerCase`
restricted to ASCII, which is all the crawler's URLs use). -/
def lowerList (cs : List Char) : List Char := cs.map Char.toLower

theorem toNat_charOfNat {n : Nat} (h : n < 0xd800) : (Char.ofNat n).toNat = n := by
  simp only [Char.ofNat, Char.isValidCharNat]
  rw [dif_pos (Or.inl h)]
  simp only [Char.ofNatAux, Char.toNat, UInt32.ofNat']
  simp [UInt32.toNat, BitVec.toNat_ofNat]

theorem toLower_toNat_of_upper {c : Char} (h : 65 ≤ c.toNat ∧ c.toNat ≤ 90) :
    (Char.toLower c).toNat = c.toNat + 32 := by
  simp only [Char.toLower, ge_iff_le]
  rw [if_pos ⟨h.1, h.2⟩]
  exact toNat_charOfNat (by omega)

theorem toLower_of_not_upper {c : Char} (h : ¬(65 ≤ c.toNat ∧ c.toNat ≤ 90)) :
    Char.toLower c = c := by
  simp only [Char.toLower, ge_iff_le]
  rw [if_neg h]

theorem char_eq_of_toNat_eq {c d : Char} (h : c.toNat = d.toNat) : c = d := by
  apply Char.eq_of_val_eq
  exact UInt32.toNat.inj h

/-- `Char.toLower` fixes every character below code point 65; moreover no
character is mapped *onto* such a character from elsewhere. -/
theorem toLower_eq_low_iff {c d : Char} (hd : d.toNat < 65) :
    Char.toLower c = d ↔ c = d := by
  constructor
  · intro h
    by_cases hc : 65 ≤ c.toNat ∧ c.toNat ≤ 90
    · have h1 := toLower_toNat_of_upper hc
      rw [h] at h1
      omega
    · rwa [toLower_of_not_upper hc] at h
  · intro h
    subst h
    exact toLower_of_not_upper (by omega)

theorem toLower_toLower (c : Char) :
    Char.toLower (Char.toLower c) = Char.toLower c := by
  by_cases hc : 65 ≤ c.toNat ∧ c.toNat ≤ 90
  · have h1 := toLower_toNat_of_upper hc
    apply toLower_of_not_upper
    omega
  · rw [toLower_of_not_upper hc, toLower_of_not_upper hc]

theorem lowerList_idem (cs : List Char) : lowerList (lowerList cs) = lowerList cs := by
  simp only [lowerList, List.map_map, Function.comp]
  exact List.map_congr_left fun c _ => toLower_toLower c

theorem lowerList_append (a b : List Char) :
    lowerList (a ++ b) = lowerList a ++ lowerList b := by
  simp [lowerList]

/-- `hasPre pat cs` holds when `pat` is an initial segment of `cs`. -/
def hasPre : List Char → List Char → Bool
  | [], _ => true
  | _ :: _, [] => false
  | p :: ps, c :: cs => p == c && hasPre ps cs

/-- `hasSub pat cs` holds when `pat` occurs contiguously inside `cs`
(model of JavaScript `String.prototype.includes`). -/
def hasSub (pat : List Char) : List Char → Bool
  | [] => hasPre pat []
  | c :: cs => hasPre pat (c :: cs) || hasSub pat cs

/-- `includes s pat` — JavaScript `s.includes(pat)` on strings. -/
def includes (s pat : String) : Bool := hasSub pat.data s.data

/-! ## The URL model (Node's WHATWG `new URL` on the hierarchical fragment)

`src/utils/url-utils.ts` relies on `new URL(url)` and `.toString()`.
We model URLs of shape `scheme://host[/path][?query][#fragment]`:
parsing validates a nonempty all-alphabetic scheme and a nonempty host,
lower-cases scheme and host (as the WHATWG parser does), and keeps path,
query and fragment verbatim; serialising writes `/` for an empty path
(`new URL("https://a.com").toString() === "https://a.com/"`). -/

structure UrlParts where
  scheme : List Char
  host : List Char
  path : List Char
  query : Option (List Char)
  frag : Option (List Char)
deriving Repr, DecidableEq

/-- A character that ends the host component. -/
def hostStop (c : Char) : Bool := c = '/' || c = '?' || c = '#'

/-- A character that ends the path component. -/
def pathStop (c : Char) : Bool := c = '?' || c = '#'

/-- Characters allowed in a scheme (the crawler only ever sees
`http`/`https`; we model alphabetic schemes). -/
def isSchemeChar (c : Char) : Bool := c.isAlpha

/-- Split a character list at the first occurrence of `"://"`. -/
def splitSchemeRest : List Char → Option (List Char × List Char)
  | [] => none
  | c :: rest =>
    if c = ':' ∧ rest.take 2 = ['/', '/'] then some ([], rest.drop 2)
    else
      match splitSchemeRest rest with
      | some (a, b) => some (c :: a, b)
      | none => none

/-- Split the `?query#fragment` tail that follows the path. -/
def parseAfterPath (rest : List Char) : Option (List Char) × Option (List Char) :=
  match rest with
  | '?' :: r =>
    let q := r.takeWhile (fun c => c ≠ '#')
    match r.dropWhile (fun c => c ≠ '#') with
    | '#' :: f => (some q, some f)
    | _ => (some q, none)
  | '#' :: f => (none, some f)
  | _ => (none, none)

/-- Model of `new URL(url)`: `none` means the constructor throws. -/
def parseUrl (url : String) : Option UrlParts :=
  match splitSchemeRest url.data with
  | none => none
  | some (schemeRaw, rest) =>
    if schemeRaw ≠ [] ∧ schemeRaw.all isSchemeChar then
      let host := rest.takeWhile (fun c => !hostStop c)
      let rest2 := rest.dropWhile (fun c => !hostStop c)
      if host ≠ [] then
        let path := rest2.takeWhile (fun c => !pathStop c)
        let rest3 := rest2.dropWhile (fun c => !pathStop c)
        let (q, f) := parseAfterPath rest3
        some ⟨lowerList schemeRaw, lowerList host, path, q, f⟩
      else none
    else none

/-- Model of `URL.prototype.toString()` (the WHATWG serialiser). -/
def serializeParts (p : UrlParts) : List Char :=
  p.scheme ++ [':', '/', '/'] ++ p.host
    ++ (if p.path = [] then ['/'] else p.path)
    ++ (match p.query with | some q => '?' :: q | none => [])
    ++ (match p.frag with | some f => '#' :: f | none => [])

def urlToString (p : UrlParts) : String := ⟨serializeParts p⟩

/-- Remove one trailing `/` (the `endsWith('/') → slice(0, -1)` step of
`normalizeUrl`). -/
def stripTrailingSlash (cs : List Char) : List Char :=
  if cs.getLast? = some '/' then cs.dropLast else cs

/-- `normalizeUrl` from `src/utils/url-utils.ts`: parse, serialise,
lower-case the whole string, strip one trailing slash; on a parse
failure return the input unchanged. -/
def normalizeUrl (url : String) : String :=
  match parseUrl url with
  | some p => ⟨stripTrailingSlash (lowerList (serializeParts p))⟩
  | none => url

/-- `isSameDomain` from `src/utils/url-utils.ts`: hostname equality,
`false` whenever either side fails to parse. -/
def isSameDomain (url baseDomain : String) : Bool :=
  match parseUrl url, parseUrl baseDomain with
  | some p, some b => p.host == b.host
  | _, _ => false

/-- Parse a `path?query#fragment` tail for relative resolution. -/
def parsePQF (cs : List Char) : List Char × Option (List Char) × Option (List Char) :=
  let path := cs.takeWhile (fun c => !pathStop c)
  let rest := cs.dropWhile (fun c => !pathStop c)
  let (q, f) := parseAfterPath rest
  (path, q, f)

/-- The directory of a path: everything up to and including the last
`/` (used for resolving relative references without a leading slash). -/
def dirOf (path : List Char) : List Char :=
  ((path.reverse.dropWhile (fun c => c ≠ '/')).reverse)

/-- Model of `new URL(relativeUrl, baseUrl).toString()` as used by
`resolveUrl` in `src/utils/url-utils.ts`: absolute inputs are reparsed
and reserialised, inputs starting with `//`, `/`, `?`, `#` replace the
corresponding suffix of the base, and other inputs are resolved against
the base directory (dot-segment normalisation is not modelled).  On
failure the relative string is returned unchanged, as in the `catch`. -/
def resolveUrl (relativeUrl baseUrl : String) : String :=
  match parseUrl relativeUrl with
  | some p => ⟨serializeParts p⟩
  | none =>
    match parseUrl baseUrl with
    | none => relativeUrl
    | some b =>
      match relativeUrl.data with
      | '/' :: '/' :: hostRest =>
        match parseUrl ⟨b.scheme ++ [':', '/', '/'] ++ hostRest⟩ with
        | some p => ⟨serializeParts p⟩
        | none => relativeUrl
      | '/' :: rest =>
        let (path, q, f) := parsePQF ('/' :: rest)
        ⟨serializeParts ⟨b.scheme, b.host, path, q, f⟩⟩
      | '?' :: rest =>
        let (q, f) := parseAfterPath ('?' :: rest)
        ⟨serializeParts ⟨b.scheme, b.host, b.path, q, f⟩⟩
      | '#' :: rest =>
        ⟨serializeParts ⟨b.scheme, b.host, b.path, b.query, some rest⟩⟩
      | [] => ⟨serializeParts b⟩
      | other =>
        let (path, q, f) := parsePQF other
        ⟨serializeParts ⟨b.scheme, b.host, dirOf b.path ++ path, q, f⟩⟩

/-! ## Product-URL patterns (`src/utils/url-utils.ts`, lines 74–92)

Each entry of `commonProductUrlPatterns` is a regular expression tested
against the *whole* URL string with `pattern.test(url)`.  Six of the
eight are plain substring tests; `-p-\d+` and `/dp/[A-Z0-9]{10}` need a
one-character, resp. ten-character, lookahead, embedded below as
recursive scanners. -/

/-- Scanner for the regex `-p-\d+`: some occurrence of `-p-` followed by
a digit. -/
def matchPDashDigit : List Char → Bool
  | '-' :: 'p' :: '-' :: d :: rest =>
    d.isDigit || matchPDashDigit ('p' :: '-' :: d :: rest)
  | _ :: rest => matchPDashDigit rest
  | [] => false

/-- A character in the regex class `[A-Z0-9]`. -/
def upperOrDigit (c : Char) : Bool := ('A' ≤ c && c ≤ 'Z') || c.isDigit

/-- First `n` characters exist and are all in `[A-Z0-9]`. -/
def takeClass : Nat → List Char → Bool
  | 0, _ => true
  | _ + 1, [] => false
  | n + 1, c :: cs => upperOrDigit c && takeClass n cs

/-- Scanner for the regex `/dp/[A-Z0-9]{10}` (Amazon-style ids). -/
def matchDpId : List Char → Bool
  | '/' :: 'd' :: 'p' :: '/' :: rest =>
    takeClass 10 rest || matchDpId ('d' :: 'p' :: '/' :: rest)
  | _ :: rest => matchDpId rest
  | [] => false

/-- `ProductUrlPattern` from `src/models/types.ts`: a matchable rule plus
its human-readable description. -/
structure ProductUrlPattern where
  pattern : List Char → Bool
  description : String

/-- `commonProductUrlPatterns` from `src/utils/url-utils.ts`. -/
def commonProductUrlPatterns : List ProductUrlPattern :=
  [ ⟨hasSub "/product/".data, "URL contains /product/"⟩,
    ⟨hasSub "/products/".data, "URL contains /products/"⟩,
    ⟨hasSub "/item/".data, "URL contains /item/"⟩,
    ⟨hasSub "/p/".data, "URL contains /p/"⟩,
    ⟨hasSub "/pd/".data, "URL contains /pd/"⟩,
    ⟨hasSub "/shop/".data, "URL contains /shop/"⟩,
    ⟨matchPDashDigit, "URL contains -p- followed by digits"⟩,
    ⟨matchDpId, "URL contains /dp/ followed by 10 alphanumeric characters (Amazon style)"⟩ ]

/-- `isLikelyProductUrl` from `src/utils/url-utils.ts`:
`commonProductUrlPatterns.some(({pattern}) => pattern.test(url))`.
`BaseCrawler.isProductUrl` delegates to the classifier exported by
`url-utils` under the name `isProductUrl`, whose matching rule is this
pattern scan. -/
def isLikelyProductUrl (url : String) : Bool :=
  commonProductUrlPatterns.any fun p => p.pattern url.data

/-! ## Crawler data model (`src/models/types.ts`, `src/config/config.ts`) -/

/-- `CrawlerConfig` from `src/config/config.ts`. -/
structure CrawlerConfig where
  concurrency : Nat
  maxDepth : Nat
  requestDelay : Nat
  userAgent : String
  timeout : Nat
  outputPath : String
  useHeadlessBrowser : Bool
deriving Repr

/-- `CrawlQueueItem` from `src/models/types.ts`. -/
structure CrawlQueueItem where
  url : String
  depth : Nat
  parentUrl : Option String := none
deriving Repr, DecidableEq

/-- The private `crawlState` object of `BaseCrawler` (the run-scoped
health counters; `lastError` keeps the error message). -/
structure CrawlState where
  lastSuccessfulUrl : String
  lastError : Option String
  blockedCount : Nat
  rateLimitHits : Nat
  networkErrors : Nat
  timeoutErrors : Nat
deriving Repr, DecidableEq

def initCrawlState : CrawlState := ⟨"", none, 0, 0, 0, 0⟩

/-- The mutable fields of a `BaseCrawler` instance, plus two ghost
fields used only by the specification: `dispatchedItems` records, in
order, every queue item for which `processQueue` created a fetch task
(the point where it inserts into `visitedUrls`), and `retryDelays`
records every backoff sleep performed by `processUrl` retries.
`batchesTaken` counts `urlQueue.splice` calls.  JavaScript `Set`s are
insertion-ordered lists with membership-guarded insertion. -/
structure CrawlerSt where
  visitedUrls : List String
  productUrls : List String
  urlQueue : List CrawlQueueItem
  crawlState : CrawlState
  dispatchedItems : List CrawlQueueItem
  retryDelays : List Nat
  batchesTaken : Nat
deriving Repr, DecidableEq

/-- `Set.prototype.add`. -/
def setAdd (l : List String) (u : String) : List String :=
  if l.contains u then l else l ++ [u]

/-- `CrawlResult` from `src/models/types.ts` (the `Date` fields are
epoch milliseconds supplied by the environment; writing the JSON file is
I/O and not modelled). -/
structure CrawlResult where
  domain : String
  productUrls : List String
  totalUrlsCrawled : Nat
  startTime : Nat
  endTime : Nat
  duration : Nat
  crawlState : CrawlState
deriving Repr, DecidableEq

/-! ## Fetching (`fetchLinksWithAxios` / `fetchLinksWithBrowser` /
`fetchLinks`, `src/crawlers/base-crawler.ts` lines 237–366)

The network is an oracle `FetchOracle`: for a URL and an attempt index
(the `retryCount` of the fetching `processUrl` call) it yields either
the raw link list found on the page or the message of the error the
fetch would throw. -/

def FetchOracle := String → Nat → Except String (List String)

/-- `fetchLinksWithAxios`: any error is caught, logged and absorbed into
an empty link list — this path never throws. -/
def fetchLinksWithAxios (oracle : FetchOracle) (url : String) (attempt : Nat) :
    Except String (List String) :=
  match oracle url attempt with
  | .ok links => .ok links
  | .error _ => .ok []

/-- The post-processing applied by `fetchLinksWithBrowser` (lines
341–353): absolutise each raw link against the page URL, keep only
results that start with `http` and do not contain `undefined`. -/
def browserFilter (links : List String) (url : String) : List String :=
  (links.map fun l => resolveUrl l url).filter fun l =>
    hasPre "http".data l.data && !includes l "undefined"

/-- `fetchLinksWithBrowser`: a failed navigation closes the page and
rethrows (`throw error`), a successful one returns the filtered links
(the `lastSuccessfulUrl` update it performs is applied by the caller
model in `processUrl`). -/
def fetchLinksWithBrowser (oracle : FetchOracle) (url : String) (attempt : Nat) :
    Except String (List String) :=
  match oracle url attempt with
  | .ok links => .ok (browserFilter links url)
  | .error e => .error e

/-- `fetchLinks`: chooses the adapter from `config.useHeadlessBrowser`. -/
def fetchLinks (cfg : CrawlerConfig) (oracle : FetchOracle) (url : String)
    (attempt : Nat) : Except String (List String) :=
  if cfg.useHeadlessBrowser then fetchLinksWithBrowser oracle url attempt
  else fetchLinksWithAxios oracle url attempt

/-! ## Error classification and retry policy
(`handleCrawlError` lines 368–383, `shouldRetry` lines 213–215) -/

inductive ErrKind
  | timeout
  | network
  | blocked
  | other
deriving Repr, DecidableEq

/-- The message-sniffing order of `handleCrawlError`: `timeout` first,
then `net::`, then `blocked`/`forbidden`/`429`, else unclassified. -/
def classifyError (e : String) : ErrKind :=
  if includes e "timeout" then .timeout
  else if includes e "net::" then .network
  else if includes e "blocked" || includes e "forbidden" || includes e "429" then .blocked
  else .other

/-- `handleCrawlError`: stores `lastError` and increments the counter
selected by the message sniff (an unclassified error increments
nothing). -/
def handleCrawlError (st : CrawlerSt) (e : String) : CrawlerSt :=
  let cs := { st.crawlState with lastError := some e }
  let cs :=
    if includes e "timeout" then { cs with timeoutErrors := cs.timeoutErrors + 1 }
    else if includes e "net::" then { cs with networkErrors := cs.networkErrors + 1 }
    else if includes e "blocked" || includes e "forbidden" || includes e "429" then
      { cs with blockedCount := cs.blockedCount + 1 }
    else cs
  { st with crawlState := cs }

/-- `shouldRetry`: only errors whose message contains `timeout` are
retried, and only while `retryCount < maxRetries`. -/
def shouldRetry (e : String) (retryCount maxRetries : Nat) : Bool :=
  includes e "timeout" && retryCount < maxRetries

/-! ## Per-item processing (`processUrl` lines 188–211,
`processLinks` lines 217–235) -/

/-- The synchronous head of `processUrl`: classify the item's (raw)
URL and record it in `productUrls` when it matches. -/
def noteProduct (st : CrawlerSt) (url : String) : CrawlerSt :=
  if isLikelyProductUrl url then { st with productUrls := setAdd st.productUrls url }
  else st

/-- `fetchLinksWithBrowser` records `crawlState.lastSuccessfulUrl = url`
just before returning its links; the Axios path does not. -/
def markFetchSuccess (cfg : CrawlerConfig) (st : CrawlerSt) (url : String) : CrawlerSt :=
  if cfg.useHeadlessBrowser then
    { st with crawlState := { st.crawlState with lastSuccessfulUrl := url } }
  else st

/-- The body of the `for (const link of links)` loop of `processLinks`:
resolve the link against the source URL, keep it when same-domain,
normalise it, and enqueue it at `depth + 1` unless already visited. -/
def processLink (domain sourceUrl : String) (depth : Nat) (st : CrawlerSt)
    (link : String) : CrawlerSt :=
  let absoluteUrl := resolveUrl link sourceUrl
  if !isSameDomain absoluteUrl domain then st
  else
    let normalizedUrl := normalizeUrl absoluteUrl
    if st.visitedUrls.contains normalizedUrl then st
    else { st with urlQueue := st.urlQueue ++ [⟨normalizedUrl, depth + 1, some sourceUrl⟩] }

/-- `processLinks`: run `processLink` over all fetched links. -/
def processLinks (domain : String) (st : CrawlerSt) (links : List String)
    (sourceUrl : String) (depth : Nat) : CrawlerSt :=
  links.foldl (processLink domain sourceUrl depth) st

/-- The state reached by a `processUrl` attempt whose `fetchLinks`
returned `links` (applied after the product note, see `processUrl`). -/
def attemptSuccess (cfg : CrawlerConfig) (domain : String) (st : CrawlerSt)
    (item : CrawlQueueItem) (links : List String) : CrawlerSt :=
  processLinks domain (markFetchSuccess cfg st item.url) links item.url item.depth

/-- Result of one `processUrl` call: the state after it, the promise
outcome (`error e` models the rethrown exception the caller catches),
the backoff sleeps performed (milliseconds) and the number of fetch
attempts consumed. -/
structure ProcResult where
  st : CrawlerSt
  res : Except String Unit
  delays : List Nat
  attempts : Nat
deriving Repr

/-- Worker for `processUrl`.  The source recursion
`return this.processUrl(item, retryCount + 1)` is guarded by
`retryCount < maxRetries` inside `shouldRetry` (`maxRetries = 2`), so
it is realised structurally on the remaining retry budget
`2 - retryCount`; `processUrl_unfold` below shows the wrapper satisfies
exactly the source's recurrence, so the `budget = 0` retry branch is
unreachable. -/
def processUrlGo (cfg : CrawlerConfig) (oracle : FetchOracle) (domain : String)
    (item : CrawlQueueItem) : Nat → Nat → CrawlerSt → ProcResult
  | budget, retryCount, st =>
    if item.depth ≥ cfg.maxDepth then ⟨noteProduct st item.url, .ok (), [], 1⟩
    else
      match fetchLinks cfg oracle item.url retryCount with
      | .ok links =>
        ⟨attemptSuccess cfg domain (noteProduct st item.url) item links, .ok (), [], 1⟩
      | .error e =>
        if shouldRetry e retryCount 2 then
          match budget with
          | b + 1 =>
            let r := processUrlGo cfg oracle domain item b (retryCount + 1)
              (noteProduct st item.url)
            ⟨r.st, r.res, 2 ^ retryCount * 1000 :: r.delays, r.attempts + 1⟩
          | 0 => ⟨noteProduct st item.url, .error e, [], 1⟩
        else ⟨noteProduct st item.url, .error e, [], 1⟩

/-- `processUrl`: note a product match, respect the depth bound, fetch,
process links; on a thrown error retry with exponential backoff
(`2^retryCount` seconds) while `shouldRetry` allows, else rethrow.
`maxRetries = 2` as in the source. -/
def processUrl (cfg : CrawlerConfig) (oracle : FetchOracle) (domain : String)
    (item : CrawlQueueItem) (retryCount : Nat) (st : CrawlerSt) : ProcResult :=
  processUrlGo cfg oracle domain item (2 - retryCount) retryCount st

/-- `processUrl` satisfies the recurrence of the source function
verbatim: the budget bookkeeping of `processUrlGo` is invisible. -/
theorem processUrl_unfold (cfg : CrawlerConfig) (oracle : FetchOracle)
    (domain : String) (item : CrawlQueueItem) (retryCount : Nat) (st : CrawlerSt) :
    processUrl cfg oracle domain item retryCount st =
      (let st := noteProduct st item.url
       if item.depth ≥ cfg.maxDepth then ⟨st, .ok (), [], 1⟩
       else
         match fetchLinks cfg oracle item.url retryCount with
         | .ok links => ⟨attemptSuccess cfg domain st item links, .ok (), [], 1⟩
         | .error e =>
           if shouldRetry e retryCount 2 then
             let delay := 2 ^ retryCount * 1000
             let r := processUrl cfg oracle domain item (retryCount + 1) st
             ⟨r.st, r.res, delay :: r.delays, r.attempts + 1⟩
           else ⟨st, .error e, [], 1⟩) := by
  show processUrlGo cfg oracle domain item (2 - retryCount) retryCount st = _
  rw [processUrlGo]
  simp only []
  by_cases hd : item.depth ≥ cfg.maxDepth
  · simp [hd]
  · simp only [hd, if_false]
    match hf : fetchLinks cfg oracle item.url retryCount with
    | .ok links => simp
    | .error e =>
      simp only []
      by_cases hr : shouldRetry e retryCount 2 = true
      · have hlt : retryCount < 2 := by
          simp only [shouldRetry, Bool.and_eq_true, decide_eq_true_eq] at hr
          exact hr.2
        have hb : 2 - retryCount = (2 - (retryCount + 1)) + 1 := by omega
        rw [hr, hb]
        rfl
      · rw [Bool.not_eq_true] at hr
        rw [hr]
        cases 2 - retryCount <;> rfl

/-! ## The queue loop (`processQueue` lines 140–170,
`shouldStopCrawling` lines 172–186)

The `for` loop over a batch is synchronous in JavaScript: every
`visitedUrls` insertion of the batch happens before any fetch promise
can resolve.  We model a batch in those two phases: `dispatchBatch`
performs the dedup-check/mark-visited/dispatch loop, `runDispatched`
then runs each dispatched `processUrl` to completion (joining the
promises in order; the intra-batch interleaving of resolutions only
permutes queue pushes inside one batch and is irrelevant to the
verified properties).  The inter-batch `requestDelay` sleep has no
state effect and is not modelled. -/

/-- Phase 1 of a batch: for each item, skip it when its normalised URL
is already visited, otherwise mark the URL visited and dispatch the
item — the mark happens in the same synchronous step, before any fetch
runs. -/
def dispatchStep (acc : CrawlerSt × List CrawlQueueItem) (item : CrawlQueueItem) :
    CrawlerSt × List CrawlQueueItem :=
  if acc.1.visitedUrls.contains (normalizeUrl item.url) then acc
  else
    ({ acc.1 with
        visitedUrls := acc.1.visitedUrls ++ [normalizeUrl item.url],
        dispatchedItems := acc.1.dispatchedItems ++ [item] },
      acc.2 ++ [item])

def dispatchBatch (st : CrawlerSt) (batch : List CrawlQueueItem) :
    CrawlerSt × List CrawlQueueItem :=
  batch.foldl dispatchStep (st, [])

/-- Phase 2 of a batch: run every dispatched item's `processUrl(item)`
with `retryCount = 0`; a rejected promise is caught by the
`.catch(error => this.handleCrawlError(error, item.url))` handler. -/
def runDispatched (cfg : CrawlerConfig) (oracle : FetchOracle) (domain : String)
    (st : CrawlerSt) (dispatched : List CrawlQueueItem) : CrawlerSt :=
  dispatched.foldl
    (fun st item =>
      let r := processUrl cfg oracle domain item 0 st
      let st := { r.st with retryDelays := r.st.retryDelays ++ r.delays }
      match r.res with
      | .ok _ => st
      | .error e => handleCrawlError st e)
    st

/-- `shouldStopCrawling` with the thresholds `processQueue` passes
(`maxTimeoutErrors = 10`, `maxNetworkErrors = 8`, `maxBlockedCount = 5`). -/
def shouldStopCrawling (cs : CrawlState) (maxTimeoutErrors maxNetworkErrors maxBlockedCount : Nat) : Bool :=
  if cs.networkErrors ≥ maxNetworkErrors then true
  else if cs.timeoutErrors ≥ maxTimeoutErrors then true
  else if cs.blockedCount ≥ maxBlockedCount then true
  else false

/-- One full iteration of the `while` body after its guards: splice a
batch of `config.concurrency` items off the queue head, dispatch it,
await it. -/
def crawlBody (cfg : CrawlerConfig) (oracle : FetchOracle) (domain : String)
    (st : CrawlerSt) : CrawlerSt :=
  let batch := st.urlQueue.take cfg.concurrency
  let st := { st with
    urlQueue := st.urlQueue.drop cfg.concurrency,
    batchesTaken := st.batchesTaken + 1 }
  let (st, dispatched) := dispatchBatch st batch
  runDispatched cfg oracle domain st dispatched

/-- Why the loop stopped. `natural` is the `while` condition turning
false (queue empty or `visitedUrls.size ≥ maxUrlsToCrawl`), `aborted`
is the `shouldStopCrawling` break, `fuelExhausted` only marks that the
supplied step bound ran out. -/
inductive StopReason
  | natural
  | aborted
  | fuelExhausted
deriving Repr, DecidableEq

/-- `processQueue`, as a fuelled loop: the guards are evaluated in the
source order (the `while` condition, then the halt condition) before
each batch. -/
def crawlLoop (cfg : CrawlerConfig) (oracle : FetchOracle) (domain : String)
    (maxUrlsToCrawl : Nat) : Nat → CrawlerSt → CrawlerSt × StopReason
  | 0, st => (st, .fuelExhausted)
  | fuel + 1, st =>
    if st.urlQueue.length = 0 ∨ st.visitedUrls.length ≥ maxUrlsToCrawl then
      (st, .natural)
    else if shouldStopCrawling st.crawlState 10 8 5 then (st, .aborted)
    else crawlLoop cfg oracle domain maxUrlsToCrawl fuel (crawlBody cfg oracle domain st)

/-! ## Run setup and finalisation (`start` lines 45–66,
`initializeBrowser` lines 68–101, `saveResults` lines 103–128) -/

/-- `initializeBrowser`: up to three launch attempts; the third failure
is rethrown.  The launch oracle gives each attempt's outcome. -/
def initializeBrowser (launch : Nat → Except String Unit) : Except String Unit :=
  match launch 0 with
  | .ok _ => .ok ()
  | .error _ =>
    match launch 1 with
    | .ok _ => .ok ()
    | .error _ => launch 2

/-- The crawler state right after the constructor and the
`urlQueue.push({url: domain, depth: 0})` at the top of `start`. -/
def initialSt (domain : String) : CrawlerSt :=
  ⟨[], [], [⟨domain, 0, none⟩], initCrawlState, [], [], 0⟩

/-- `saveResults`: stamp the end time and freeze the run into a
`CrawlResult` (writing the two JSON files is I/O and not modelled). -/
def saveResults (domain : String) (startTime endTime : Nat) (st : CrawlerSt) :
    CrawlResult :=
  { domain := domain,
    productUrls := st.productUrls,
    totalUrlsCrawled := st.visitedUrls.length,
    startTime := startTime,
    endTime := endTime,
    duration := endTime - startTime,
    crawlState := st.crawlState }

/-- `start`: seed the queue, initialise the browser when configured
(three failed launches rethrow out of `start` — the `finally` block
only closes the browser), run `processQueue`, then `saveResults`.
`maxUrlsToCrawl` is the class field (`= 100` in the source); `fuel`
bounds the number of loop iterations evaluated. -/
def start (cfg : CrawlerConfig) (oracle : FetchOracle)
    (launch : Nat → Except String Unit) (domain : String)
    (maxUrlsToCrawl fuel : Nat) (startTime endTime : Nat) :
    Except String CrawlResult :=
  match (if cfg.useHeadlessBrowser then initializeBrowser launch else .ok ()) with
  | .error e => .error e
  | .ok _ =>
    let (st, _) := crawlLoop cfg oracle domain maxUrlsToCrawl fuel (initialSt domain)
    .ok (saveResults domain startTime endTime st)

/-! ## Effect lemmas: which fields each operation can touch -/

theorem processLink_shape (domain sourceUrl : String) (depth : Nat)
    (st : CrawlerSt) (link : String) :
    ∃ extra, processLink domain sourceUrl depth st link =
        { st with urlQueue := st.urlQueue ++ extra } ∧
      ∀ it ∈ extra, it.depth = depth + 1 := by
  by_cases h1 : isSameDomain (resolveUrl link sourceUrl) domain = true
  · by_cases h2 : normalizeUrl (resolveUrl link sourceUrl) ∈ st.visitedUrls
    · exact ⟨[], by simp [processLink, h1, h2], by simp⟩
    · exact ⟨[⟨normalizeUrl (resolveUrl link sourceUrl), depth + 1, some sourceUrl⟩],
        by simp [processLink, h1, h2], by simp⟩
  · exact ⟨[], by simp [processLink, h1], by simp⟩

theorem processLinks_shape (domain : String) (links : List String)
    (sourceUrl : String) (depth : Nat) (st : CrawlerSt) :
    ∃ extra, processLinks domain st links sourceUrl depth =
        { st with urlQueue := st.urlQueue ++ extra } ∧
      ∀ it ∈ extra, it.depth = depth + 1 := by
  induction links generalizing st with
  | nil => exact ⟨[], by simp [processLinks], by simp⟩
  | cons l ls ih =>
    obtain ⟨e1, heq1, hd1⟩ := processLink_shape domain sourceUrl depth st l
    obtain ⟨e2, heq2, hd2⟩ := ih (processLink domain sourceUrl depth st l)
    refine ⟨e1 ++ e2, ?_, ?_⟩
    · simp only [processLinks, List.foldl_cons] at heq2 ⊢
      rw [heq2, heq1]
      simp
    · intro it hit
      rcases List.mem_append.mp hit with h | h
      · exact hd1 it h
      · exact hd2 it h

theorem noteProduct_shape (st : CrawlerSt) (url : String) :
    ∃ prods, noteProduct st url = { st with productUrls := prods } ∧
      ∀ u ∈ prods, u ∈ st.productUrls ∨ (u = url ∧ isLikelyProductUrl url = true) := by
  by_cases hp : isLikelyProductUrl url
  · refine ⟨setAdd st.productUrls url, by simp [noteProduct, hp], ?_⟩
    intro u hu
    simp only [setAdd] at hu
    by_cases hc : st.productUrls.contains url
    · simp only [hc, if_pos] at hu
      exact Or.inl hu
    · simp only [hc] at hu
      rcases List.mem_append.mp hu with h | h
      · exact Or.inl h
      · simp at h
        exact Or.inr ⟨h, hp⟩
  · exact ⟨st.productUrls, by simp [noteProduct, hp], fun u hu => Or.inl hu⟩

theorem markFetchSuccess_shape (cfg : CrawlerConfig) (st : CrawlerSt) (url : String) :
    ∃ cs, markFetchSuccess cfg st url = { st with crawlState := cs } ∧
      cs.networkErrors = st.crawlState.networkErrors ∧
      cs.timeoutErrors = st.crawlState.timeoutErrors ∧
      cs.blockedCount = st.crawlState.blockedCount ∧
      cs.lastError = st.crawlState.lastError := by
  by_cases hb : cfg.useHeadlessBrowser = true
  · exact ⟨{ st.crawlState with lastSuccessfulUrl := url },
      by simp [markFetchSuccess, hb], rfl, rfl, rfl, rfl⟩
  · exact ⟨st.crawlState, by simp [markFetchSuccess, hb], rfl, rfl, rfl, rfl⟩

/-! Per-field effect lemmas, used to push facts through the operation
chain `noteProduct` / `markFetchSuccess` / `processLinks`. -/

@[simp] theorem noteProduct_visitedUrls (st : CrawlerSt) (url : String) :
    (noteProduct st url).visitedUrls = st.visitedUrls := by
  unfold noteProduct; split <;> rfl

@[simp] theorem noteProduct_urlQueue (st : CrawlerSt) (url : String) :
    (noteProduct st url).urlQueue = st.urlQueue := by
  unfold noteProduct; split <;> rfl

@[simp] theorem noteProduct_crawlState (st : CrawlerSt) (url : String) :
    (noteProduct st url).crawlState = st.crawlState := by
  unfold noteProduct; split <;> rfl

@[simp] theorem noteProduct_dispatchedItems (st : CrawlerSt) (url : String) :
    (noteProduct st url).dispatchedItems = st.dispatchedItems := by
  unfold noteProduct; split <;> rfl

@[simp] theorem noteProduct_retryDelays (st : CrawlerSt) (url : String) :
    (noteProduct st url).retryDelays = st.retryDelays := by
  unfold noteProduct; split <;> rfl

@[simp] theorem noteProduct_batchesTaken (st : CrawlerSt) (url : String) :
    (noteProduct st url).batchesTaken = st.batchesTaken := by
  unfold noteProduct; split <;> rfl

theorem noteProduct_products {st : CrawlerSt} {url : String} :
    ∀ u ∈ (noteProduct st url).productUrls,
      u ∈ st.productUrls ∨ (u = url ∧ isLikelyProductUrl u = true) := by
  intro u hu
  obtain ⟨prods, heq, hp⟩ := noteProduct_shape st url
  rw [heq] at hu
  rcases hp u hu with h | h
  · exact Or.inl h
  · exact Or.inr ⟨h.1, h.1 ▸ h.2⟩

@[simp] theorem markFetchSuccess_visitedUrls (cfg : CrawlerConfig) (st : CrawlerSt) (url : String) :
    (markFetchSuccess cfg st url).visitedUrls = st.visitedUrls := by
  unfold markFetchSuccess; split <;> rfl

@[simp] theorem markFetchSuccess_productUrls (cfg : CrawlerConfig) (st : CrawlerSt) (url : String) :
    (markFetchSuccess cfg st url).productUrls = st.productUrls := by
  unfold markFetchSuccess; split <;> rfl

@[simp] theorem markFetchSuccess_urlQueue (cfg : CrawlerConfig) (st : CrawlerSt) (url : String) :
    (markFetchSuccess cfg st url).urlQueue = st.urlQueue := by
  unfold markFetchSuccess; split <;> rfl

@[simp] theorem markFetchSuccess_dispatchedItems (cfg : CrawlerConfig) (st : CrawlerSt) (url : String) :
    (markFetchSuccess cfg st url).dispatchedItems = st.dispatchedItems := by
  unfold markFetchSuccess; split <;> rfl

@[simp] theorem markFetchSuccess_retryDelays (cfg : CrawlerConfig) (st : CrawlerSt) (url : String) :
    (markFetchSuccess cfg st url).retryDelays = st.retryDelays := by
  unfold markFetchSuccess; split <;> rfl

@[simp] theorem markFetchSuccess_batchesTaken (cfg : CrawlerConfig) (st : CrawlerSt) (url : String) :
    (markFetchSuccess cfg st url).batchesTaken = st.batchesTaken := by
  unfold markFetchSuccess; split <;> rfl

@[simp] theorem markFetchSuccess_networkErrors (cfg : CrawlerConfig) (st : CrawlerSt) (url : String) :
    (markFetchSuccess cfg st url).crawlState.networkErrors = st.crawlState.networkErrors := by
  unfold markFetchSuccess; split <;> rfl

@[simp] theorem markFetchSuccess_timeoutErrors (cfg : CrawlerConfig) (st : CrawlerSt) (url : String) :
    (markFetchSuccess cfg st url).crawlState.timeoutErrors = st.crawlState.timeoutErrors := by
  unfold markFetchSuccess; split <;> rfl

@[simp] theorem markFetchSuccess_blockedCount (cfg : CrawlerConfig) (st : CrawlerSt) (url : String) :
    (markFetchSuccess cfg st url).crawlState.blockedCount = st.crawlState.blockedCount := by
  unfold markFetchSuccess; split <;> rfl

@[simp] theorem markFetchSuccess_lastError (cfg : CrawlerConfig) (st : CrawlerSt) (url : String) :
    (markFetchSuccess cfg st url).crawlState.lastError = st.crawlState.lastError := by
  unfold markFetchSuccess; split <;> rfl

@[simp] theorem processLinks_visitedUrls (domain : String) (st : CrawlerSt)
    (links : List String) (sourceUrl : String) (depth : Nat) :
    (processLinks domain st links sourceUrl depth).visitedUrls = st.visitedUrls := by
  obtain ⟨e, he, _⟩ := processLinks_shape domain links sourceUrl depth st
  rw [he]

@[simp] theorem processLinks_productUrls (domain : String) (st : CrawlerSt)
    (links : List String) (sourceUrl : String) (depth : Nat) :
    (processLinks domain st links sourceUrl depth).productUrls = st.productUrls := by
  obtain ⟨e, he, _⟩ := processLinks_shape domain links sourceUrl depth st
  rw [he]

@[simp] theorem processLinks_crawlState (domain : String) (st : CrawlerSt)
    (links : List String) (sourceUrl : String) (depth : Nat) :
    (processLinks domain st links sourceUrl depth).crawlState = st.crawlState := by
  obtain ⟨e, he, _⟩ := processLinks_shape domain links sourceUrl depth st
  rw [he]

@[simp] theorem processLinks_dispatchedItems (domain : String) (st : CrawlerSt)
    (links : List String) (sourceUrl : String) (depth : Nat) :
    (processLinks domain st links sourceUrl depth).dispatchedItems = st.dispatchedItems := by
  obtain ⟨e, he, _⟩ := processLinks_shape domain links sourceUrl depth st
  rw [he]

@[simp] theorem processLinks_retryDelays (domain : String) (st : CrawlerSt)
    (links : List String) (sourceUrl : String) (depth : Nat) :
    (processLinks domain st links sourceUrl depth).retryDelays = st.retryDelays := by
  obtain ⟨e, he, _⟩ := processLinks_shape domain links sourceUrl depth st
  rw [he]

@[simp] theorem processLinks_batchesTaken (domain : String) (st : CrawlerSt)
    (links : List String) (sourceUrl : String) (depth : Nat) :
    (processLinks domain st links sourceUrl depth).batchesTaken = st.batchesTaken := by
  obtain ⟨e, he, _⟩ := processLinks_shape domain links sourceUrl depth st
  rw [he]

theorem processLinks_queue_mem (domain : String) (st : CrawlerSt)
    (links : List String) (sourceUrl : String) (depth : Nat) :
    ∀ it ∈ (processLinks domain st links sourceUrl depth).urlQueue,
      it ∈ st.urlQueue ∨ it.depth = depth + 1 := by
  obtain ⟨e, he, hd⟩ := processLinks_shape domain links sourceUrl depth st
  rw [he]
  intro it hit
  rcases List.mem_append.mp hit with h | h
  · exact Or.inl h
  · exact Or.inr (hd it h)

/-- `processUrlGo` leaves `visitedUrls`, `dispatchedItems`,
`retryDelays`, `batchesTaken`, the health counters and `lastError`
untouched; every queue entry it adds has depth `item.depth + 1` and is
only added when `item.depth < cfg.maxDepth`; every product URL it adds
is `item.url` and matches the classifier. -/
theorem processUrlGo_shape (cfg : CrawlerConfig) (oracle : FetchOracle)
    (domain : String) (item : CrawlQueueItem) (budget retryCount : Nat)
    (st : CrawlerSt) :
    (processUrlGo cfg oracle domain item budget retryCount st).st.visitedUrls = st.visitedUrls ∧
    (processUrlGo cfg oracle domain item budget retryCount st).st.dispatchedItems = st.dispatchedItems ∧
    (processUrlGo cfg oracle domain item budget retryCount st).st.retryDelays = st.retryDelays ∧
    (processUrlGo cfg oracle domain item budget retryCount st).st.batchesTaken = st.batchesTaken ∧
    (processUrlGo cfg oracle domain item budget retryCount st).st.crawlState.networkErrors = st.crawlState.networkErrors ∧
    (processUrlGo cfg oracle domain item budget retryCount st).st.crawlState.timeoutErrors = st.crawlState.timeoutErrors ∧
    (processUrlGo cfg oracle domain item budget retryCount st).st.crawlState.blockedCount = st.crawlState.blockedCount ∧
    (processUrlGo cfg oracle domain item budget retryCount st).st.crawlState.lastError = st.crawlState.lastError ∧
    (∀ it ∈ (processUrlGo cfg oracle domain item budget retryCount st).st.urlQueue,
      it ∈ st.urlQueue ∨ (it.depth = item.depth + 1 ∧ ¬item.depth ≥ cfg.maxDepth)) ∧
    (∀ u ∈ (processUrlGo cfg oracle domain item budget retryCount st).st.productUrls,
      u ∈ st.productUrls ∨ (u = item.url ∧ isLikelyProductUrl u = true)) := by
  induction budget generalizing retryCount st with
  | zero =>
    rw [processUrlGo]
    by_cases hd : item.depth ≥ cfg.maxDepth
    · rw [if_pos hd]
      exact ⟨by simp, by simp, by simp, by simp, by simp, by simp, by simp, by simp,
        by intro it hit; simp at hit; exact Or.inl hit, noteProduct_products⟩
    · rw [if_neg hd]
      match hf : fetchLinks cfg oracle item.url retryCount with
      | .ok links =>
        refine ⟨by simp [attemptSuccess], by simp [attemptSuccess], by simp [attemptSuccess],
          by simp [attemptSuccess], by simp [attemptSuccess], by simp [attemptSuccess],
          by simp [attemptSuccess], by simp [attemptSuccess], ?_, ?_⟩
        · intro it hit
          rcases processLinks_queue_mem domain _ links item.url item.depth it hit with h | h
          · simp at h
            exact Or.inl h
          · exact Or.inr ⟨h, hd⟩
        · intro u hu
          simp only [ProcResult.st, attemptSuccess, processLinks_productUrls,
            markFetchSuccess_productUrls] at hu
          exact noteProduct_products u hu
      | .error e =>
        by_cases hr : shouldRetry e retryCount 2 = true
        · simp only [hr, if_true]
          exact ⟨by simp, by simp, by simp, by simp, by simp, by simp, by simp, by simp,
            by intro it hit; simp at hit; exact Or.inl hit, noteProduct_products⟩
        · rw [Bool.not_eq_true] at hr
          simp only [hr, Bool.false_eq_true, if_false]
          exact ⟨by simp, by simp, by simp, by simp, by simp, by simp, by simp, by simp,
            by intro it hit; simp at hit; exact Or.inl hit, noteProduct_products⟩
  | succ b ih =>
    rw [processUrlGo]
    by_cases hd : item.depth ≥ cfg.maxDepth
    · rw [if_pos hd]
      exact ⟨by simp, by simp, by simp, by simp, by simp, by simp, by simp, by simp,
        by intro it hit; simp at hit; exact Or.inl hit, noteProduct_products⟩
    · rw [if_neg hd]
      match hf : fetchLinks cfg oracle item.url retryCount with
      | .ok links =>
        refine ⟨by simp [attemptSuccess], by simp [attemptSuccess], by simp [attemptSuccess],
          by simp [attemptSuccess], by simp [attemptSuccess], by simp [attemptSuccess],
          by simp [attemptSuccess], by simp [attemptSuccess], ?_, ?_⟩
        · intro it hit
          rcases processLinks_queue_mem domain _ links item.url item.depth it hit with h | h
          · simp at h
            exact Or.inl h
          · exact Or.inr ⟨h, hd⟩
        · intro u hu
          simp only [ProcResult.st, attemptSuccess, processLinks_productUrls,
            markFetchSuccess_productUrls] at hu
          exact noteProduct_products u hu
      | .error e =>
        by_cases hr : shouldRetry e retryCount 2 = true
        · simp only [hr, if_true]
          obtain ⟨h1, h2, h3, h4, h5, h6, h7, h8, h9, h10⟩ :=
            ih (retryCount + 1) (noteProduct st item.url)
          simp only [noteProduct_visitedUrls, noteProduct_dispatchedItems,
            noteProduct_retryDelays, noteProduct_batchesTaken, noteProduct_crawlState,
            noteProduct_urlQueue] at h1 h2 h3 h4 h5 h6 h7 h8 h9
          refine ⟨h1, h2, h3, h4, h5, h6, h7, h8, h9, ?_⟩
          intro u hu
          rcases h10 u hu with h | h
          · rcases noteProduct_products u h with h' | h'
            · exact Or.inl h'
            · exact Or.inr h'
          · exact Or.inr h
        · rw [Bool.not_eq_true] at hr
          simp only [hr, Bool.false_eq_true, if_false]
          exact ⟨by simp, by simp, by simp, by simp, by simp, by simp, by simp, by simp,
            by intro it hit; simp at hit; exact Or.inl hit, noteProduct_products⟩

/-! ## `handleCrawlError` effect lemmas -/

@[simp] theorem handleCrawlError_visitedUrls (st : CrawlerSt) (e : String) :
    (handleCrawlError st e).visitedUrls = st.visitedUrls := rfl

@[simp] theorem handleCrawlError_productUrls (st : CrawlerSt) (e : String) :
    (handleCrawlError st e).productUrls = st.productUrls := rfl

@[simp] theorem handleCrawlError_urlQueue (st : CrawlerSt) (e : String) :
    (handleCrawlError st e).urlQueue = st.urlQueue := rfl

@[simp] theorem handleCrawlError_dispatchedItems (st : CrawlerSt) (e : String) :
    (handleCrawlError st e).dispatchedItems = st.dispatchedItems := rfl

@[simp] theorem handleCrawlError_retryDelays (st : CrawlerSt) (e : String) :
    (handleCrawlError st e).retryDelays = st.retryDelays := rfl

@[simp] theorem handleCrawlError_batchesTaken (st : CrawlerSt) (e : String) :
    (handleCrawlError st e).batchesTaken = st.batchesTaken := rfl

/-- The exact counter increments of `handleCrawlError`, phrased through
`classifyError` (whose `if` chain mirrors the same message sniffing in
the same order). -/
theorem handleCrawlError_classified (st : CrawlerSt) (e : String) :
    (handleCrawlError st e).crawlState.lastError = some e ∧
    (handleCrawlError st e).crawlState.timeoutErrors =
      st.crawlState.timeoutErrors + (if classifyError e = .timeout then 1 else 0) ∧
    (handleCrawlError st e).crawlState.networkErrors =
      st.crawlState.networkErrors + (if classifyError e = .network then 1 else 0) ∧
    (handleCrawlError st e).crawlState.blockedCount =
      st.crawlState.blockedCount + (if classifyError e = .blocked then 1 else 0) := by
  unfold handleCrawlError classifyError
  by_cases h1 : includes e "timeout" = true
  · simp [h1]
  · rw [Bool.not_eq_true] at h1
    by_cases h2 : includes e "net::" = true
    · simp [h1, h2]
    · rw [Bool.not_eq_true] at h2
      by_cases h3 : (includes e "blocked" || includes e "forbidden" || includes e "429") = true
      · simp [h1, h2, h3]
      · rw [Bool.not_eq_true] at h3
        simp [h1, h2, h3]

/-- `handleCrawlError` never decreases a health counter. -/
theorem handleCrawlError_mono (st : CrawlerSt) (e : String) :
    st.crawlState.networkErrors ≤ (handleCrawlError st e).crawlState.networkErrors ∧
    st.crawlState.timeoutErrors ≤ (handleCrawlError st e).crawlState.timeoutErrors ∧
    st.crawlState.blockedCount ≤ (handleCrawlError st e).crawlState.blockedCount := by
  obtain ⟨_, ht, hn, hb⟩ := handleCrawlError_classified st e
  rw [ht, hn, hb]
  omega

/-! ## `dispatchStep` / `dispatchBatch` effect lemmas -/

@[simp] theorem dispatchStep_urlQueue (acc : CrawlerSt × List CrawlQueueItem)
    (item : CrawlQueueItem) : (dispatchStep acc item).1.urlQueue = acc.1.urlQueue := by
  unfold dispatchStep; split <;> rfl

@[simp] theorem dispatchStep_productUrls (acc : CrawlerSt × List CrawlQueueItem)
    (item : CrawlQueueItem) : (dispatchStep acc item).1.productUrls = acc.1.productUrls := by
  unfold dispatchStep; split <;> rfl

@[simp] theorem dispatchStep_crawlState (acc : CrawlerSt × List CrawlQueueItem)
    (item : CrawlQueueItem) : (dispatchStep acc item).1.crawlState = acc.1.crawlState := by
  unfold dispatchStep; split <;> rfl

@[simp] theorem dispatchStep_retryDelays (acc : CrawlerSt × List CrawlQueueItem)
    (item : CrawlQueueItem) : (dispatchStep acc item).1.retryDelays = acc.1.retryDelays := by
  unfold dispatchStep; split <;> rfl

@[simp] theorem dispatchStep_batchesTaken (acc : CrawlerSt × List CrawlQueueItem)
    (item : CrawlQueueItem) : (dispatchStep acc item).1.batchesTaken = acc.1.batchesTaken := by
  unfold dispatchStep; split <;> rfl

theorem dispatchFold_fields (batch : List CrawlQueueItem)
    (acc : CrawlerSt × List CrawlQueueItem) :
    (batch.foldl dispatchStep acc).1.urlQueue = acc.1.urlQueue ∧
    (batch.foldl dispatchStep acc).1.productUrls = acc.1.productUrls ∧
    (batch.foldl dispatchStep acc).1.crawlState = acc.1.crawlState ∧
    (batch.foldl dispatchStep acc).1.retryDelays = acc.1.retryDelays ∧
    (batch.foldl dispatchStep acc).1.batchesTaken = acc.1.batchesTaken := by
  induction batch generalizing acc with
  | nil => exact ⟨rfl, rfl, rfl, rfl, rfl⟩
  | cons b bs ih =>
    obtain ⟨h1, h2, h3, h4, h5⟩ := ih (dispatchStep acc b)
    simp only [List.foldl_cons]
    exact ⟨by rw [h1]; simp, by rw [h2]; simp, by rw [h3]; simp,
      by rw [h4]; simp, by rw [h5]; simp⟩

/-! ## The scheduler invariant

`Inv maxDepth st` collects the run-long facts of `processQueue`:

* `visitedUrls` is exactly the list of canonical URLs of the dispatched
  items, in dispatch order, and it has no duplicates — so no two
  dispatched fetches share a canonical URL;
* every queued and every dispatched item respects the depth bound;
* every recorded product URL is the URL of some dispatched item that
  matches the product classifier. -/
def Inv (maxDepth : Nat) (st : CrawlerSt) : Prop :=
  st.visitedUrls = st.dispatchedItems.map (fun it => normalizeUrl it.url) ∧
  st.visitedUrls.Nodup ∧
  (∀ it ∈ st.urlQueue, it.depth ≤ maxDepth) ∧
  (∀ it ∈ st.dispatchedItems, it.depth ≤ maxDepth) ∧
  (∀ u ∈ st.productUrls, ∃ it ∈ st.dispatchedItems, it.url = u ∧ isLikelyProductUrl u = true)

theorem inv_initial (domain : String) (maxDepth : Nat) :
    Inv maxDepth (initialSt domain) := by
  refine ⟨rfl, List.nodup_nil, ?_, by simp [initialSt], by simp [initialSt]⟩
  intro it hit
  simp [initialSt] at hit
  simp [hit]

/-- One `dispatchStep` preserves the invariant and keeps the running
dispatch list inside `dispatchedItems`. -/
theorem dispatchStep_inv {maxDepth : Nat} {acc : CrawlerSt × List CrawlQueueItem}
    {item : CrawlQueueItem} (hinv : Inv maxDepth acc.1)
    (hds : ∀ it ∈ acc.2, it ∈ acc.1.dispatchedItems) (hdepth : item.depth ≤ maxDepth) :
    Inv maxDepth (dispatchStep acc item).1 ∧
      ∀ it ∈ (dispatchStep acc item).2, it ∈ (dispatchStep acc item).1.dispatchedItems := by
  obtain ⟨hmap, hnodup, hqueue, hdisp, hprod⟩ := hinv
  by_cases hvis : acc.1.visitedUrls.contains (normalizeUrl item.url) = true
  · rw [show dispatchStep acc item = acc from by unfold dispatchStep; rw [if_pos hvis]]
    exact ⟨⟨hmap, hnodup, hqueue, hdisp, hprod⟩, hds⟩
  · rw [Bool.not_eq_true] at hvis
    have hnotmem : normalizeUrl item.url ∉ acc.1.visitedUrls := by
      simpa using hvis
    have hstep : dispatchStep acc item =
        ({ acc.1 with
            visitedUrls := acc.1.visitedUrls ++ [normalizeUrl item.url],
            dispatchedItems := acc.1.dispatchedItems ++ [item] },
          acc.2 ++ [item]) := by
      unfold dispatchStep
      rw [if_neg (by simpa using hnotmem)]
    rw [hstep]
    refine ⟨⟨?_, ?_, hqueue, ?_, ?_⟩, ?_⟩
    · simp only [List.map_append, List.map_cons, List.map_nil]
      rw [← hmap]
    · simp only [List.nodup_append, List.nodup_cons, List.nodup_nil]
      refine ⟨hnodup, by simp, ?_⟩
      intro a ha heq
      simp only [List.mem_singleton] at heq
      exact hnotmem (heq ▸ ha)
    · intro it hit
      rcases List.mem_append.mp hit with h | h
      · exact hdisp it h
      · simp at h
        exact h ▸ hdepth
    · intro u hu
      obtain ⟨it, hit, hu1, hu2⟩ := hprod u hu
      exact ⟨it, List.mem_append.mpr (Or.inl hit), hu1, hu2⟩
    · intro it hit
      rcases List.mem_append.mp hit with h | h
      · exact List.mem_append.mpr (Or.inl (hds it h))
      · exact List.mem_append.mpr (Or.inr h)

theorem dispatchFold_inv {maxDepth : Nat} (batch : List CrawlQueueItem)
    (acc : CrawlerSt × List CrawlQueueItem) (hinv : Inv maxDepth acc.1)
    (hds : ∀ it ∈ acc.2, it ∈ acc.1.dispatchedItems)
    (hbatch : ∀ it ∈ batch, it.depth ≤ maxDepth) :
    Inv maxDepth (batch.foldl dispatchStep acc).1 ∧
      ∀ it ∈ (batch.foldl dispatchStep acc).2,
        it ∈ (batch.foldl dispatchStep acc).1.dispatchedItems := by
  induction batch generalizing acc with
  | nil => exact ⟨hinv, hds⟩
  | cons b bs ih =>
    obtain ⟨h1, h2⟩ := dispatchStep_inv hinv hds (hbatch b (by simp))
    exact ih (dispatchStep acc b) h1 h2 (fun it hit => hbatch it (by simp [hit]))

/-- `processUrlGo_shape` transported to `processUrl`. -/
theorem processUrl_shape (cfg : CrawlerConfig) (oracle : FetchOracle)
    (domain : String) (item : CrawlQueueItem) (retryCount : Nat) (st : CrawlerSt) :
    (processUrl cfg oracle domain item retryCount st).st.visitedUrls = st.visitedUrls ∧
    (processUrl cfg oracle domain item retryCount st).st.dispatchedItems = st.dispatchedItems ∧
    (processUrl cfg oracle domain item retryCount st).st.retryDelays = st.retryDelays ∧
    (processUrl cfg oracle domain item retryCount st).st.batchesTaken = st.batchesTaken ∧
    (processUrl cfg oracle domain item retryCount st).st.crawlState.networkErrors = st.crawlState.networkErrors ∧
    (processUrl cfg oracle domain item retryCount st).st.crawlState.timeoutErrors = st.crawlState.timeoutErrors ∧
    (processUrl cfg oracle domain item retryCount st).st.crawlState.blockedCount = st.crawlState.blockedCount ∧
    (processUrl cfg oracle domain item retryCount st).st.crawlState.lastError = st.crawlState.lastError ∧
    (∀ it ∈ (processUrl cfg oracle domain item retryCount st).st.urlQueue,
      it ∈ st.urlQueue ∨ (it.depth = item.depth + 1 ∧ ¬item.depth ≥ cfg.maxDepth)) ∧
    (∀ u ∈ (processUrl cfg oracle domain item retryCount st).st.productUrls,
      u ∈ st.productUrls ∨ (u = item.url ∧ isLikelyProductUrl u = true)) :=
  processUrlGo_shape cfg oracle domain item (2 - retryCount) retryCount st

/-- `processUrl` keeps the invariant, provided the processed item is one
of the dispatched items of the current state. -/
theorem processUrl_inv {cfg : CrawlerConfig} {oracle : FetchOracle} {domain : String}
    {item : CrawlQueueItem} {st : CrawlerSt} (hinv : Inv cfg.maxDepth st)
    (hmem : item ∈ st.dispatchedItems) :
    Inv cfg.maxDepth (processUrl cfg oracle domain item 0 st).st := by
  obtain ⟨hmap, hnodup, hqueue, hdisp, hprod⟩ := hinv
  obtain ⟨h1, h2, _, _, _, _, _, _, h9, h10⟩ :=
    processUrl_shape cfg oracle domain item 0 st
  refine ⟨by rw [h1, h2]; exact hmap, by rw [h1]; exact hnodup, ?_, by rw [h2]; exact hdisp, ?_⟩
  · intro it hit
    rcases h9 it hit with h | h
    · exact hqueue it h
    · have := hdisp item hmem
      omega
  · intro u hu
    rcases h10 u hu with h | h
    · obtain ⟨it, hit, hu1, hu2⟩ := hprod u h
      rw [h2]
      exact ⟨it, hit, hu1, hu2⟩
    · rw [h2]
      exact ⟨item, hmem, h.1.symm, h.2⟩

theorem runDispatched_inv {cfg : CrawlerConfig} {oracle : FetchOracle} {domain : String}
    (items : List CrawlQueueItem) (st : CrawlerSt) (hinv : Inv cfg.maxDepth st)
    (hmem : ∀ it ∈ items, it ∈ st.dispatchedItems) :
    Inv cfg.maxDepth (runDispatched cfg oracle domain st items) := by
  induction items generalizing st with
  | nil => exact hinv
  | cons b bs ih =>
    simp only [runDispatched, List.foldl_cons]
    obtain ⟨_, hdisp2, _, _, _, _, _, _, _, _⟩ :=
      processUrl_shape cfg oracle domain b 0 st
    have hinv1 : Inv cfg.maxDepth (processUrl cfg oracle domain b 0 st).st :=
      processUrl_inv hinv (hmem b (by simp))
    set r := processUrl cfg oracle domain b 0 st with hr
    have hinv2 : Inv cfg.maxDepth { r.st with retryDelays := r.st.retryDelays ++ r.delays } := by
      obtain ⟨a1, a2, a3, a4, a5⟩ := hinv1
      exact ⟨a1, a2, a3, a4, a5⟩
    have hmem2 : ∀ it ∈ bs, it ∈ ({ r.st with retryDelays := r.st.retryDelays ++ r.delays }).dispatchedItems := by
      intro it hit
      show it ∈ r.st.dispatchedItems
      rw [show r.st.dispatchedItems = st.dispatchedItems from hdisp2]
      exact hmem it (by simp [hit])
    match hres : r.res with
    | .ok _ => exact ih _ hinv2 hmem2
    | .error e =>
      refine ih _ ?_ ?_
      · obtain ⟨a1, a2, a3, a4, a5⟩ := hinv2
        refine ⟨by simpa using a1, by simpa using a2, by simpa using a3,
          by simpa using a4, ?_⟩
        intro u hu
        simp only [handleCrawlError_productUrls] at hu
        obtain ⟨it, hit, hu1, hu2⟩ := a5 u hu
        exact ⟨it, by simpa using hit, hu1, hu2⟩
      · intro it hit
        simpa using hmem2 it hit

theorem crawlBody_inv {cfg : CrawlerConfig} {oracle : FetchOracle} {domain : String}
    {st : CrawlerSt} (hinv : Inv cfg.maxDepth st) :
    Inv cfg.maxDepth (crawlBody cfg oracle domain st) := by
  obtain ⟨hmap, hnodup, hqueue, hdisp, hprod⟩ := hinv
  unfold crawlBody
  set st1 : CrawlerSt := { st with
    urlQueue := st.urlQueue.drop cfg.concurrency,
    batchesTaken := st.batchesTaken + 1 } with hst1
  have hinv1 : Inv cfg.maxDepth st1 := by
    refine ⟨hmap, hnodup, ?_, hdisp, hprod⟩
    intro it hit
    exact hqueue it (List.mem_of_mem_drop hit)
  have hbatch : ∀ it ∈ st.urlQueue.take cfg.concurrency, it.depth ≤ cfg.maxDepth :=
    fun it hit => hqueue it (List.mem_of_mem_take hit)
  obtain ⟨h1, h2⟩ :=
    dispatchFold_inv (st.urlQueue.take cfg.concurrency) (st1, []) hinv1 (by simp) hbatch
  exact runDispatched_inv _ _ h1 h2

theorem crawlLoop_inv {cfg : CrawlerConfig} {oracle : FetchOracle} {domain : String}
    {maxUrlsToCrawl : Nat} (fuel : Nat) (st : CrawlerSt) (hinv : Inv cfg.maxDepth st) :
    Inv cfg.maxDepth (crawlLoop cfg oracle domain maxUrlsToCrawl fuel st).1 := by
  induction fuel generalizing st with
  | zero => exact hinv
  | succ n ih =>
    rw [crawlLoop]
    split
    · exact hinv
    · split
      · exact hinv
      · exact ih _ (crawlBody_inv hinv)

/-! ## Health counters never decrease -/

theorem runDispatched_counters (cfg : CrawlerConfig) (oracle : FetchOracle)
    (domain : String) (items : List CrawlQueueItem) (st : CrawlerSt) :
    st.crawlState.networkErrors ≤ (runDispatched cfg oracle domain st items).crawlState.networkErrors ∧
    st.crawlState.timeoutErrors ≤ (runDispatched cfg oracle domain st items).crawlState.timeoutErrors ∧
    st.crawlState.blockedCount ≤ (runDispatched cfg oracle domain st items).crawlState.blockedCount := by
  induction items generalizing st with
  | nil => exact ⟨le_refl _, le_refl _, le_refl _⟩
  | cons b bs ih =>
    simp only [runDispatched, List.foldl_cons]
    obtain ⟨_, _, _, _, hn, ht, hbk, _, _, _⟩ := processUrl_shape cfg oracle domain b 0 st
    set r := processUrl cfg oracle domain b 0 st with hr
    set st1 := { r.st with retryDelays := r.st.retryDelays ++ r.delays } with hst1
    have hbase : st.crawlState.networkErrors = st1.crawlState.networkErrors ∧
        st.crawlState.timeoutErrors = st1.crawlState.timeoutErrors ∧
        st.crawlState.blockedCount = st1.crawlState.blockedCount :=
      ⟨hn.symm, ht.symm, hbk.symm⟩
    match hres : r.res with
    | .ok _ =>
      obtain ⟨i1, i2, i3⟩ := ih st1
      exact ⟨hbase.1 ▸ i1, hbase.2.1 ▸ i2, hbase.2.2 ▸ i3⟩
    | .error e =>
      obtain ⟨i1, i2, i3⟩ := ih (handleCrawlError st1 e)
      obtain ⟨m1, m2, m3⟩ := handleCrawlError_mono st1 e
      exact ⟨hbase.1 ▸ le_trans m1 i1, hbase.2.1 ▸ le_trans m2 i2,
        hbase.2.2 ▸ le_trans m3 i3⟩

theorem crawlBody_counters (cfg : CrawlerConfig) (oracle : FetchOracle)
    (domain : String) (st : CrawlerSt) :
    st.crawlState.networkErrors ≤ (crawlBody cfg oracle domain st).crawlState.networkErrors ∧
    st.crawlState.timeoutErrors ≤ (crawlBody cfg oracle domain st).crawlState.timeoutErrors ∧
    st.crawlState.blockedCount ≤ (crawlBody cfg oracle domain st).crawlState.blockedCount := by
  unfold crawlBody
  set st1 : CrawlerSt := { st with
    urlQueue := st.urlQueue.drop cfg.concurrency,
    batchesTaken := st.batchesTaken + 1 } with hst1
  obtain ⟨_, _, hcs, _, _⟩ :=
    dispatchFold_fields (st.urlQueue.take cfg.concurrency) (st1, [])
  set acc := (st.urlQueue.take cfg.concurrency).foldl dispatchStep (st1, []) with hacc
  obtain ⟨i1, i2, i3⟩ := runDispatched_counters cfg oracle domain acc.2 acc.1
  rw [hcs] at i1 i2 i3
  exact ⟨i1, i2, i3⟩

/-- `shouldStopCrawling` is monotone in the counters. -/
theorem shouldStopCrawling_mono {cs cs' : CrawlState}
    {maxTimeoutErrors maxNetworkErrors maxBlockedCount : Nat}
    (hn : cs.networkErrors ≤ cs'.networkErrors)
    (ht : cs.timeoutErrors ≤ cs'.timeoutErrors)
    (hb : cs.blockedCount ≤ cs'.blockedCount)
    (h : shouldStopCrawling cs maxTimeoutErrors maxNetworkErrors maxBlockedCount = true) :
    shouldStopCrawling cs' maxTimeoutErrors maxNetworkErrors maxBlockedCount = true := by
  unfold shouldStopCrawling at h ⊢
  split at h
  · rename_i hh
    rw [if_pos (le_trans hh hn)]
  · split at h
    · rename_i hh
      split
      · rfl
      · rw [if_pos (le_trans hh ht)]
    · split at h
      · rename_i hh
        split
        · rfl
        · split
          · rfl
          · rw [if_pos (le_trans hh hb)]
      · exact absurd h (by simp)

/-! ## The Axios path absorbs all fetch failures -/

theorem markFetchSuccess_axios {cfg : CrawlerConfig} (hb : cfg.useHeadlessBrowser = false)
    (st : CrawlerSt) (url : String) : markFetchSuccess cfg st url = st := by
  simp [markFetchSuccess, hb]

theorem axios_fetch {cfg : CrawlerConfig} (hb : cfg.useHeadlessBrowser = false)
    (oracle : FetchOracle) (url : String) (attempt : Nat) :
    ∃ links, fetchLinks cfg oracle url attempt = .ok links := by
  rw [fetchLinks, if_neg (by simp [hb])]
  unfold fetchLinksWithAxios
  match oracle url attempt with
  | .ok links => exact ⟨links, rfl⟩
  | .error _ => exact ⟨[], rfl⟩

/-- On the Axios path a `processUrl` call always resolves on its first
attempt: no retry, no backoff sleep, no rethrown error, and the whole
`crawlState` object is untouched. -/
theorem axios_processUrl {cfg : CrawlerConfig} (hb : cfg.useHeadlessBrowser = false)
    (oracle : FetchOracle) (domain : String) (item : CrawlQueueItem)
    (retryCount : Nat) (st : CrawlerSt) :
    (processUrl cfg oracle domain item retryCount st).res = .ok () ∧
    (processUrl cfg oracle domain item retryCount st).delays = [] ∧
    (processUrl cfg oracle domain item retryCount st).attempts = 1 ∧
    (processUrl cfg oracle domain item retryCount st).st.crawlState = st.crawlState := by
  by_cases hd : item.depth ≥ cfg.maxDepth
  · have heq : processUrl cfg oracle domain item retryCount st =
        ⟨noteProduct st item.url, .ok (), [], 1⟩ := by
      show processUrlGo cfg oracle domain item (2 - retryCount) retryCount st = _
      rw [processUrlGo, if_pos hd]
    rw [heq]
    exact ⟨rfl, rfl, rfl, by simp⟩
  · obtain ⟨links, hf⟩ := axios_fetch hb oracle item.url retryCount
    have heq : processUrl cfg oracle domain item retryCount st =
        ⟨attemptSuccess cfg domain (noteProduct st item.url) item links, .ok (), [], 1⟩ := by
      show processUrlGo cfg oracle domain item (2 - retryCount) retryCount st = _
      rw [processUrlGo, if_neg hd, hf]
    rw [heq]
    refine ⟨rfl, rfl, rfl, ?_⟩
    show (attemptSuccess cfg domain (noteProduct st item.url) item links).crawlState = _
    rw [attemptSuccess, markFetchSuccess_axios hb]
    simp

theorem axios_runDispatched {cfg : CrawlerConfig} (hb : cfg.useHeadlessBrowser = false)
    (oracle : FetchOracle) (domain : String) (items : List CrawlQueueItem)
    (st : CrawlerSt) :
    (runDispatched cfg oracle domain st items).crawlState = st.crawlState ∧
    (runDispatched cfg oracle domain st items).retryDelays = st.retryDelays := by
  induction items generalizing st with
  | nil => exact ⟨rfl, rfl⟩
  | cons b bs ih =>
    simp only [runDispatched, List.foldl_cons]
    obtain ⟨hres0, hdel, _, hcs⟩ := axios_processUrl hb oracle domain b 0 st
    obtain ⟨_, _, hrd, _, _, _, _, _, _, _⟩ := processUrl_shape cfg oracle domain b 0 st
    set r := processUrl cfg oracle domain b 0 st with hr
    set st1 := { r.st with retryDelays := r.st.retryDelays ++ r.delays } with hst1
    have hst1cs : st1.crawlState = st.crawlState := hcs
    have hst1rd : st1.retryDelays = st.retryDelays := by
      rw [hst1]
      show r.st.retryDelays ++ r.delays = st.retryDelays
      rw [hdel, hrd, List.append_nil]
    match hres : r.res with
    | .ok u =>
      obtain ⟨i1, i2⟩ := ih st1
      exact ⟨i1.trans hst1cs, i2.trans hst1rd⟩
    | .error e =>
      rw [hres0] at hres
      cases hres

theorem axios_crawlBody {cfg : CrawlerConfig} (hb : cfg.useHeadlessBrowser = false)
    (oracle : FetchOracle) (domain : String) (st : CrawlerSt) :
    (crawlBody cfg oracle domain st).crawlState = st.crawlState ∧
    (crawlBody cfg oracle domain st).retryDelays = st.retryDelays := by
  unfold crawlBody
  set st1 : CrawlerSt := { st with
    urlQueue := st.urlQueue.drop cfg.concurrency,
    batchesTaken := st.batchesTaken + 1 } with hst1
  obtain ⟨_, _, hcs, hrd, _⟩ :=
    dispatchFold_fields (st.urlQueue.take cfg.concurrency) (st1, [])
  set acc := (st.urlQueue.take cfg.concurrency).foldl dispatchStep (st1, []) with hacc
  obtain ⟨i1, i2⟩ := axios_runDispatched hb oracle domain acc.2 acc.1
  exact ⟨i1.trans hcs, i2.trans hrd⟩

/-- On the Axios path the whole loop leaves `crawlState` and the retry
trace untouched, and can only stop via the `while` guard, fuel, or a
halt condition that already held on entry. -/
theorem axios_crawlLoop {cfg : CrawlerConfig} (hb : cfg.useHeadlessBrowser = false)
    (oracle : FetchOracle) (domain : String) (maxUrlsToCrawl fuel : Nat)
    (st : CrawlerSt) :
    (crawlLoop cfg oracle domain maxUrlsToCrawl fuel st).1.crawlState = st.crawlState ∧
    (crawlLoop cfg oracle domain maxUrlsToCrawl fuel st).1.retryDelays = st.retryDelays ∧
    ((crawlLoop cfg oracle domain maxUrlsToCrawl fuel st).2 = .aborted →
      shouldStopCrawling st.crawlState 10 8 5 = true) := by
  induction fuel generalizing st with
  | zero => exact ⟨rfl, rfl, fun h => by cases h⟩
  | succ n ih =>
    rw [crawlLoop]
    split
    · exact ⟨rfl, rfl, fun h => by cases h⟩
    · split
      · rename_i hstop
        exact ⟨rfl, rfl, fun _ => hstop⟩
      · rename_i hstop
        obtain ⟨b1, b2⟩ := axios_crawlBody hb oracle domain st
        obtain ⟨i1, i2, i3⟩ := ih (crawlBody cfg oracle domain st)
        refine ⟨i1.trans b1, i2.trans b2, fun h => ?_⟩
        have := i3 h
        rw [b1] at this
        exact this

/-! ## The halt condition freezes the loop -/

/-- If the halt condition holds, the loop performs no further work: the
state (including `batchesTaken`) is returned unchanged. -/
theorem crawlLoop_halted {cfg : CrawlerConfig} {oracle : FetchOracle} {domain : String}
    {maxUrlsToCrawl : Nat} (fuel : Nat) (st : CrawlerSt)
    (h : shouldStopCrawling st.crawlState 10 8 5 = true) :
    (crawlLoop cfg oracle domain maxUrlsToCrawl fuel st).1 = st := by
  cases fuel with
  | zero => rfl
  | succ n =>
    rw [crawlLoop, if_pos h]
    split <;> rfl

/-! ## The retry policy of `processUrl` -/

theorem classifyError_timeout_iff (e : String) :
    classifyError e = .timeout ↔ includes e "timeout" = true := by
  unfold classifyError
  by_cases h1 : includes e "timeout" = true
  · simp [h1]
  · rw [Bool.not_eq_true] at h1
    simp only [h1, Bool.false_eq_true, if_false]
    constructor
    · intro h
      split at h
      · cases h
      · split at h
        · cases h
        · cases h
    · intro h
      cases h

theorem shouldRetry_false_at_two (e : String) : shouldRetry e 2 2 = false := by
  simp [shouldRetry]

/-- Attempt accounting for `processUrlGo` when invoked, as `processUrl`
does, with `budget + retryCount = 2`: at least one and at most
`3 - retryCount` fetch attempts are consumed; the backoff sleeps are
exactly `2^k · 1000` ms for the consecutive `k` starting at
`retryCount`; every non-final attempt failed with a Timeout-classified
error (so no other failure kind is ever retried); and a rethrown final
error either is not Timeout-classified or had exhausted the retry
budget. -/
theorem processUrlGo_retry (cfg : CrawlerConfig) (oracle : FetchOracle)
    (domain : String) (item : CrawlQueueItem) (budget : Nat) :
    ∀ (retryCount : Nat), budget + retryCount = 2 → ∀ (st : CrawlerSt),
    1 ≤ (processUrlGo cfg oracle domain item budget retryCount st).attempts ∧
    retryCount + (processUrlGo cfg oracle domain item budget retryCount st).attempts ≤ 3 ∧
    (processUrlGo cfg oracle domain item budget retryCount st).delays =
      (List.range ((processUrlGo cfg oracle domain item budget retryCount st).attempts - 1)).map
        (fun i => 2 ^ (retryCount + i) * 1000) ∧
    (∀ i ∈ List.range ((processUrlGo cfg oracle domain item budget retryCount st).attempts - 1),
      ∃ e, fetchLinks cfg oracle item.url (retryCount + i) = .error e ∧
        classifyError e = .timeout) ∧
    (∀ e, (processUrlGo cfg oracle domain item budget retryCount st).res = .error e →
      fetchLinks cfg oracle item.url
          (retryCount + (processUrlGo cfg oracle domain item budget retryCount st).attempts - 1) =
        .error e ∧
      (classifyError e ≠ .timeout ∨
        retryCount + (processUrlGo cfg oracle domain item budget retryCount st).attempts - 1 ≥ 2)) := by
  induction budget with
  | zero =>
    intro retryCount hbr st
    have hr2 : retryCount = 2 := by omega
    subst hr2
    by_cases hd : item.depth ≥ cfg.maxDepth
    · have heq : processUrlGo cfg oracle domain item 0 2 st =
          ⟨noteProduct st item.url, .ok (), [], 1⟩ := by
        rw [processUrlGo, if_pos hd]
      rw [heq]
      exact ⟨by simp, by simp, by simp, by simp, fun e h => nomatch h⟩
    · match hf : fetchLinks cfg oracle item.url 2 with
      | .ok links =>
        have heq : processUrlGo cfg oracle domain item 0 2 st =
            ⟨attemptSuccess cfg domain (noteProduct st item.url) item links,
              .ok (), [], 1⟩ := by
          rw [processUrlGo, if_neg hd, hf]
        rw [heq]
        exact ⟨by simp, by simp, by simp, by simp, fun e h => nomatch h⟩
      | .error e =>
        have heq : processUrlGo cfg oracle domain item 0 2 st =
            ⟨noteProduct st item.url, .error e, [], 1⟩ := by
          rw [processUrlGo, if_neg hd, hf]
          simp only []
          rw [shouldRetry_false_at_two]
          simp
        rw [heq]
        refine ⟨by simp, by simp, by simp, by simp, ?_⟩
        intro e' h
        cases h
        exact ⟨hf, Or.inr (by show (2:Nat) + 1 - 1 ≥ 2; omega)⟩
  | succ b ih =>
    intro retryCount hbr st
    by_cases hd : item.depth ≥ cfg.maxDepth
    · have heq : processUrlGo cfg oracle domain item (b + 1) retryCount st =
          ⟨noteProduct st item.url, .ok (), [], 1⟩ := by
        rw [processUrlGo, if_pos hd]
      rw [heq]
      exact ⟨by simp, by show retryCount + 1 ≤ 3; omega, by simp, by simp,
        fun e h => nomatch h⟩
    · match hf : fetchLinks cfg oracle item.url retryCount with
      | .ok links =>
        have heq : processUrlGo cfg oracle domain item (b + 1) retryCount st =
            ⟨attemptSuccess cfg domain (noteProduct st item.url) item links,
              .ok (), [], 1⟩ := by
          rw [processUrlGo, if_neg hd, hf]
        rw [heq]
        exact ⟨by simp, by show retryCount + 1 ≤ 3; omega, by simp, by simp,
          fun e h => nomatch h⟩
      | .error e =>
        by_cases hrt : shouldRetry e retryCount 2 = true
        · have heq : processUrlGo cfg oracle domain item (b + 1) retryCount st =
              ⟨(processUrlGo cfg oracle domain item b (retryCount + 1) (noteProduct st item.url)).st,
                (processUrlGo cfg oracle domain item b (retryCount + 1) (noteProduct st item.url)).res,
                2 ^ retryCount * 1000 ::
                  (processUrlGo cfg oracle domain item b (retryCount + 1) (noteProduct st item.url)).delays,
                (processUrlGo cfg oracle domain item b (retryCount + 1) (noteProduct st item.url)).attempts + 1⟩ := by
            rw [processUrlGo, if_neg hd, hf]
            simp only []
            rw [hrt]
            rfl
          rw [heq]
          obtain ⟨i1, i2, i3, i4, i5⟩ :=
            ih (retryCount + 1) (by omega) (noteProduct st item.url)
          set r := processUrlGo cfg oracle domain item b (retryCount + 1)
            (noteProduct st item.url) with hrdef
          have htime : includes e "timeout" = true := by
            simp only [shouldRetry, Bool.and_eq_true] at hrt
            exact hrt.1
          refine ⟨by simp, by show retryCount + (r.attempts + 1) ≤ 3; omega, ?_, ?_, ?_⟩
          · show 2 ^ retryCount * 1000 :: r.delays = _
            rw [i3]
            have hatt : r.attempts + 1 - 1 = (r.attempts - 1) + 1 := by omega
            show _ = (List.range (r.attempts + 1 - 1)).map _
            rw [hatt, List.range_succ_eq_map, List.map_cons, List.map_map]
            refine congrArg₂ _ (by simp) ?_
            apply List.map_congr_left
            intro i _
            simp only [Function.comp_apply]
            have hexp : retryCount + 1 + i = retryCount + (i + 1) := by omega
            rw [hexp]
          · intro i hi
            simp only [List.mem_range] at hi
            have hi2 : i < r.attempts + 1 - 1 := hi
            match i with
            | 0 => exact ⟨e, by simpa using hf, (classifyError_timeout_iff e).mpr htime⟩
            | j + 1 =>
              have hj : j ∈ List.range (r.attempts - 1) := by
                simp only [List.mem_range]
                omega
              obtain ⟨e', he1, he2⟩ := i4 j hj
              refine ⟨e', ?_, he2⟩
              rw [show retryCount + (j + 1) = retryCount + 1 + j from by omega]
              exact he1
          · intro e' h
            have hres : r.res = .error e' := h
            obtain ⟨he1, he2⟩ := i5 e' hres
            constructor
            · rw [show retryCount + (r.attempts + 1) - 1 = retryCount + 1 + r.attempts - 1 from by omega]
              exact he1
            · rcases he2 with h2 | h2
              · exact Or.inl h2
              · refine Or.inr ?_
                show retryCount + (r.attempts + 1) - 1 ≥ 2
                omega
        · have hrtf : shouldRetry e retryCount 2 = false := by
            rw [Bool.not_eq_true] at hrt
            exact hrt
          have heq : processUrlGo cfg oracle domain item (b + 1) retryCount st =
              ⟨noteProduct st item.url, .error e, [], 1⟩ := by
            rw [processUrlGo, if_neg hd, hf]
            simp only []
            rw [hrtf]
            simp
          rw [heq]
          refine ⟨by simp, by show retryCount + 1 ≤ 3; omega, by simp, by simp, ?_⟩
          intro e' h
          cases h
          refine ⟨by simpa using hf, ?_⟩
          by_cases htime : includes e "timeout" = true
          · refine Or.inr ?_
            have hge : ¬(retryCount < 2) := by
              intro hlt
              have hcontra : shouldRetry e retryCount 2 = true := by
                simp [shouldRetry, htime, hlt]
              rw [hcontra] at hrtf
              cases hrtf
            show retryCount + 1 - 1 ≥ 2
            omega
          · exact Or.inl (fun hc => htime ((classifyError_timeout_iff e).mp hc))

/-! ## Round-trip properties of the URL model

These lemmas relate `parseUrl`, `serializeParts` and lower-casing; they
drive the analysis of `normalizeUrl` (idempotence and query
preservation). -/

theorem takeWhile_app_all {α : Type} {p : α → Bool} {xs : List α} (ys : List α)
    (h : ∀ a ∈ xs, p a = true) :
    (xs ++ ys).takeWhile p = xs ++ ys.takeWhile p := by
  induction xs with
  | nil => simp
  | cons x xs ih =>
    simp only [List.cons_append, List.takeWhile_cons, h x (by simp), if_true]
    rw [ih (fun a ha => h a (by simp [ha]))]

theorem dropWhile_app_all {α : Type} {p : α → Bool} {xs : List α} (ys : List α)
    (h : ∀ a ∈ xs, p a = true) :
    (xs ++ ys).dropWhile p = ys.dropWhile p := by
  induction xs with
  | nil => simp
  | cons x xs ih =>
    simp only [List.cons_append, List.dropWhile_cons, h x (by simp), if_true]
    rw [ih (fun a ha => h a (by simp [ha]))]

theorem isSchemeChar_ne_colon {c : Char} (h : isSchemeChar c = true) : c ≠ ':' := by
  intro hc
  subst hc
  simp [isSchemeChar, Char.isAlpha, Char.isUpper, Char.isLower] at h

theorem uint32_le_iff {a b : UInt32} : a ≤ b ↔ a.toNat ≤ b.toNat := by
  rw [UInt32.le_def, BitVec.le_def]
  exact Iff.rfl

theorem isUpper_iff {c : Char} : c.isUpper = true ↔ 65 ≤ c.toNat ∧ c.toNat ≤ 90 := by
  show (c.val ≥ 65 && c.val ≤ 90) = true ↔ _
  rw [Bool.and_eq_true, decide_eq_true_eq, decide_eq_true_eq, ge_iff_le,
    uint32_le_iff, uint32_le_iff]
  exact Iff.rfl

theorem isLower_iff {c : Char} : c.isLower = true ↔ 97 ≤ c.toNat ∧ c.toNat ≤ 122 := by
  show (c.val ≥ 97 && c.val ≤ 122) = true ↔ _
  rw [Bool.and_eq_true, decide_eq_true_eq, decide_eq_true_eq, ge_iff_le,
    uint32_le_iff, uint32_le_iff]
  exact Iff.rfl

theorem isSchemeChar_toLower {c : Char} (h : isSchemeChar c = true) :
    isSchemeChar (Char.toLower c) = true := by
  simp only [isSchemeChar, Char.isAlpha, Bool.or_eq_true] at h ⊢
  rcases h with h | h
  · have hup := isUpper_iff.mp h
    have hlow := toLower_toNat_of_upper hup
    right
    rw [isLower_iff, hlow]
    omega
  · have hlo := isLower_iff.mp h
    rw [toLower_of_not_upper (by omega)]
    right
    exact h

theorem hostStop_of_toLower {c : Char} (h : hostStop (Char.toLower c) = true) :
    hostStop c = true := by
  simp only [hostStop, Bool.or_eq_true, decide_eq_true_eq] at h ⊢
  rcases h with (h | h) | h
  · exact Or.inl (Or.inl ((toLower_eq_low_iff (by decide)).mp h))
  · exact Or.inl (Or.inr ((toLower_eq_low_iff (by decide)).mp h))
  · exact Or.inr ((toLower_eq_low_iff (by decide)).mp h)

theorem pathStop_of_toLower {c : Char} (h : pathStop (Char.toLower c) = true) :
    pathStop c = true := by
  simp only [pathStop, Bool.or_eq_true, decide_eq_true_eq] at h ⊢
  rcases h with h | h
  · exact Or.inl ((toLower_eq_low_iff (by decide)).mp h)
  · exact Or.inr ((toLower_eq_low_iff (by decide)).mp h)

theorem splitSchemeRest_exact {a : List Char} (b : List Char)
    (h : ∀ c ∈ a, c ≠ ':') :
    splitSchemeRest (a ++ ':' :: '/' :: '/' :: b) = some (a, b) := by
  induction a with
  | nil => simp [splitSchemeRest]
  | cons x xs ih =>
    rw [List.cons_append, splitSchemeRest,
      if_neg (fun hx => h x (by simp) hx.1),
      ih (fun c hc => h c (by simp [hc]))]

/-- Well-formedness of `UrlParts`, as established by `parseUrl` and
needed for the parse/serialise round trip. -/
def WFParts (p : UrlParts) : Prop :=
  p.scheme ≠ [] ∧ p.scheme.all isSchemeChar = true ∧
  p.host ≠ [] ∧ (∀ c ∈ p.host, hostStop c = false) ∧
  (∀ c ∈ p.path, pathStop c = false) ∧
  (p.path = [] ∨ p.path.head? = some '/') ∧
  (∀ q, p.query = some q → '#' ∉ q)

/-- The path component as reconstructed by reparsing a serialisation
(an empty path serialises as `/`). -/
def fixPath (path : List Char) : List Char := if path = [] then ['/'] else path

/-- Lower-casing a parts record componentwise. -/
def lowerParts (p : UrlParts) : UrlParts :=
  ⟨lowerList p.scheme, lowerList p.host, lowerList p.path,
    p.query.map lowerList, p.frag.map lowerList⟩

theorem parseAfterPath_query (rest : List Char) :
    ∀ q, (parseAfterPath rest).1 = some q → '#' ∉ q := by
  unfold parseAfterPath
  split
  · rename_i r
    intro q hq
    split at hq
    · cases hq
      intro hc
      have := List.mem_takeWhile_imp hc
      simp at this
    · cases hq
      intro hc
      have := List.mem_takeWhile_imp hc
      simp at this
  · intro q hq
    cases hq
  · intro q hq
    cases hq

/-- Every output of `parseUrl` is well-formed and has its scheme and
host already lower-cased. -/
theorem parseUrl_wf {u : String} {p : UrlParts} (h : parseUrl u = some p) :
    WFParts p ∧ p.scheme = lowerList p.scheme ∧ p.host = lowerList p.host := by
  unfold parseUrl at h
  match hsplit : splitSchemeRest u.data with
  | none => rw [hsplit] at h; cases h
  | some (schemeRaw, rest) =>
    rw [hsplit] at h
    simp only [] at h
    by_cases hscheme : schemeRaw ≠ [] ∧ schemeRaw.all isSchemeChar = true
    case neg => rw [if_neg (by simpa using hscheme)] at h; cases h
    rw [if_pos (by simpa using hscheme)] at h
    by_cases hhost : rest.takeWhile (fun c => !hostStop c) ≠ []
    case neg => rw [if_neg hhost] at h; cases h
    rw [if_pos hhost] at h
    rcases hqf : parseAfterPath ((rest.dropWhile fun c => !hostStop c).dropWhile
      fun c => !pathStop c) with ⟨qc, fc⟩
    rw [hqf] at h
    cases h
    refine ⟨⟨?_, ?_, ?_, ?_, ?_, ?_, ?_⟩, ?_, ?_⟩
    · show lowerList schemeRaw ≠ []
      simpa [lowerList] using hscheme.1
    · show (lowerList schemeRaw).all isSchemeChar = true
      have h2 := hscheme.2
      rw [List.all_eq_true] at h2 ⊢
      intro c hc
      simp only [lowerList, List.mem_map] at hc
      obtain ⟨d, hd, hdc⟩ := hc
      exact hdc ▸ isSchemeChar_toLower (h2 d hd)
    · show lowerList (rest.takeWhile fun c => !hostStop c) ≠ []
      simpa [lowerList] using hhost
    · show ∀ c ∈ lowerList (rest.takeWhile fun c => !hostStop c), hostStop c = false
      intro c hc
      simp only [lowerList, List.mem_map] at hc
      obtain ⟨d, hd, hdc⟩ := hc
      have hds := List.mem_takeWhile_imp hd
      rw [Bool.not_eq_true'] at hds
      subst hdc
      rw [Bool.eq_false_iff]
      intro hcontra
      rw [hostStop_of_toLower hcontra] at hds
      cases hds
    · show ∀ c ∈ (rest.dropWhile fun c => !hostStop c).takeWhile fun c => !pathStop c,
        pathStop c = false
      intro c hc
      have := List.mem_takeWhile_imp hc
      rwa [Bool.not_eq_true'] at this
    · show (rest.dropWhile fun c => !hostStop c).takeWhile (fun c => !pathStop c) = [] ∨
        ((rest.dropWhile fun c => !hostStop c).takeWhile fun c => !pathStop c).head? = some '/'
      match hdrop : rest.dropWhile (fun c => !hostStop c) with
      | [] => exact Or.inl (by simp)
      | d :: ds =>
        have hd : (!hostStop d) = false := by
          have hh := List.head?_dropWhile_not (fun c => !hostStop c) rest
          rw [hdrop] at hh
          simpa using hh
        rw [Bool.not_eq_false'] at hd
        simp only [hostStop, Bool.or_eq_true, decide_eq_true_eq] at hd
        rcases hd with (hd | hd) | hd
        · subst hd
          refine Or.inr ?_
          rw [List.takeWhile_cons, if_pos (by simp [pathStop])]
          rfl
        · subst hd
          refine Or.inl ?_
          rw [List.takeWhile_cons, if_neg (by simp [pathStop])]
        · subst hd
          refine Or.inl ?_
          rw [List.takeWhile_cons, if_neg (by simp [pathStop])]
    · show ∀ q, qc = some q → '#' ∉ q
      intro q hq
      exact parseAfterPath_query _ q (by rw [hqf, hq])
    · show lowerList schemeRaw = lowerList (lowerList schemeRaw)
      exact (lowerList_idem _).symm
    · show lowerList (rest.takeWhile fun c => !hostStop c) =
        lowerList (lowerList (rest.takeWhile fun c => !hostStop c))
      exact (lowerList_idem _).symm

/-- Reparsing a string assembled from well-formed components recovers
them (scheme and host lowered, the `?query#fragment` tail reparsed). -/
theorem parseUrl_assembled (scheme host path0 tail : List Char)
    (hs1 : scheme ≠ []) (hs2 : scheme.all isSchemeChar = true)
    (hh1 : host ≠ []) (hh2 : ∀ c ∈ host, hostStop c = false)
    (hp0 : ∃ t, path0 = '/' :: t) (hp1 : ∀ c ∈ path0, pathStop c = false)
    (htail : tail = [] ∨ (∃ tl, tail = '?' :: tl) ∨ (∃ tl, tail = '#' :: tl)) :
    parseUrl ⟨scheme ++ ':' :: '/' :: '/' :: (host ++ (path0 ++ tail))⟩ =
      some ⟨lowerList scheme, lowerList host, path0,
        (parseAfterPath tail).1, (parseAfterPath tail).2⟩ := by
  obtain ⟨t, ht⟩ := hp0
  have hcolon : ∀ c ∈ scheme, c ≠ ':' :=
    fun c hc => isSchemeChar_ne_colon (List.all_eq_true.mp hs2 c hc)
  have hh2' : ∀ c ∈ host, (!hostStop c) = true := by
    intro c hc
    rw [Bool.not_eq_true']
    exact hh2 c hc
  have hp1' : ∀ c ∈ path0, (!pathStop c) = true := by
    intro c hc
    rw [Bool.not_eq_true']
    exact hp1 c hc
  have htake0 : (path0 ++ tail).takeWhile (fun c => !hostStop c) = [] := by
    rw [ht, List.cons_append, List.takeWhile_cons, if_neg (by simp [hostStop])]
  have hdrop0 : (path0 ++ tail).dropWhile (fun c => !hostStop c) = path0 ++ tail := by
    rw [ht, List.cons_append, List.dropWhile_cons, if_neg (by simp [hostStop])]
  have htake1 : tail.takeWhile (fun c => !pathStop c) = [] := by
    rcases htail with h | ⟨tl, h⟩ | ⟨tl, h⟩ <;> subst h
    · simp
    · rw [List.takeWhile_cons, if_neg (by simp [pathStop])]
    · rw [List.takeWhile_cons, if_neg (by simp [pathStop])]
  have hdrop1 : tail.dropWhile (fun c => !pathStop c) = tail := by
    rcases htail with h | ⟨tl, h⟩ | ⟨tl, h⟩ <;> subst h
    · simp
    · rw [List.dropWhile_cons, if_neg (by simp [pathStop])]
    · rw [List.dropWhile_cons, if_neg (by simp [pathStop])]
  unfold parseUrl
  rw [show (⟨scheme ++ ':' :: '/' :: '/' :: (host ++ (path0 ++ tail))⟩ : String).data =
    scheme ++ ':' :: '/' :: '/' :: (host ++ (path0 ++ tail)) from rfl]
  rw [splitSchemeRest_exact _ hcolon]
  simp only []
  rw [if_pos ⟨hs1, hs2⟩]
  rw [takeWhile_app_all _ hh2', htake0, List.append_nil]
  rw [if_pos hh1]
  rw [dropWhile_app_all _ hh2', hdrop0]
  rw [takeWhile_app_all _ hp1', htake1, List.append_nil]
  rw [dropWhile_app_all _ hp1', hdrop1]

/-- The `?query#fragment` tail as written by `serializeParts`. -/
def serTail (qOpt fOpt : Option (List Char)) : List Char :=
  (match qOpt with | some q => '?' :: q | none => []) ++
    (match fOpt with | some f => '#' :: f | none => [])

/-- The serialised `?query#fragment` tail reparses to the same
components, provided the query contains no `#`. -/
theorem parseAfterPath_tail (qOpt fOpt : Option (List Char))
    (hq : ∀ q, qOpt = some q → '#' ∉ q) :
    parseAfterPath (serTail qOpt fOpt) = (qOpt, fOpt) := by
  unfold serTail
  rcases qOpt with _ | q
  · rcases fOpt with _ | f
    · rfl
    · rfl
  · have hq' : ∀ c ∈ q, (fun c => decide (c ≠ '#')) c = true := by
      intro c hc
      simp only [decide_eq_true_eq]
      intro hceq
      exact hq q rfl (hceq ▸ hc)
    rcases fOpt with _ | f
    · show parseAfterPath ('?' :: (q ++ [])) = _
      unfold parseAfterPath
      simp only []
      rw [takeWhile_app_all _ hq', dropWhile_app_all _ hq']
      simp
    · show parseAfterPath ('?' :: (q ++ '#' :: f)) = _
      unfold parseAfterPath
      simp only []
      rw [takeWhile_app_all _ hq', dropWhile_app_all _ hq']
      simp only [List.takeWhile_cons, List.dropWhile_cons]
      rw [if_neg (by simp), if_neg (by simp)]
      simp

/-- The round trip: reparsing a serialised well-formed parts record
recovers it, up to lower-casing of scheme and host and the `/` written
for an empty path. -/
theorem parseUrl_serialize {p : UrlParts} (hwf : WFParts p) :
    parseUrl (urlToString p) =
      some ⟨lowerList p.scheme, lowerList p.host, fixPath p.path, p.query, p.frag⟩ := by
  obtain ⟨hs1, hs2, hh1, hh2, hp1, hp2, hq1⟩ := hwf
  have hpath0 : ∃ t, fixPath p.path = '/' :: t := by
    rcases hp2 with hnil | hhead
    · exact ⟨[], by simp [fixPath, hnil]⟩
    · match hp : p.path with
      | [] => exact ⟨[], by simp [fixPath]⟩
      | c :: tl =>
        rw [hp] at hhead
        simp only [List.head?_cons, Option.some.injEq] at hhead
        exact ⟨tl, by simp [fixPath, hhead]⟩
  have hp1' : ∀ c ∈ fixPath p.path, pathStop c = false := by
    intro c hc
    unfold fixPath at hc
    split at hc
    · simp only [List.mem_singleton] at hc
      subst hc
      decide
    · exact hp1 c hc
  have htail : serTail p.query p.frag = [] ∨
      (∃ tl, serTail p.query p.frag = '?' :: tl) ∨
      (∃ tl, serTail p.query p.frag = '#' :: tl) := by
    unfold serTail
    rcases p.query with _ | q
    · rcases p.frag with _ | f
      · exact Or.inl rfl
      · exact Or.inr (Or.inr ⟨f, rfl⟩)
    · exact Or.inr (Or.inl ⟨_, rfl⟩)
  have hser : serializeParts p = p.scheme ++ ':' :: '/' :: '/' ::
      (p.host ++ (fixPath p.path ++ serTail p.query p.frag)) := by
    unfold serializeParts fixPath serTail
    simp [List.append_assoc]
  have hpa : parseAfterPath (serTail p.query p.frag) = (p.query, p.frag) :=
    parseAfterPath_tail p.query p.frag hq1
  rw [show urlToString p = ⟨p.scheme ++ ':' :: '/' :: '/' ::
      (p.host ++ (fixPath p.path ++ serTail p.query p.frag))⟩ from
    congrArg (fun cs => (⟨cs⟩ : String)) hser]
  rw [parseUrl_assembled _ _ _ _ hs1 hs2 hh1 hh2 hpath0 hp1' htail, hpa]

/-- Lower-casing a serialisation is the serialisation of the
componentwise lower-cased record. -/
theorem lower_serialize (p : UrlParts) :
    lowerList (serializeParts p) = serializeParts (lowerParts p) := by
  rcases p with ⟨s, h, path, q, f⟩
  show lowerList (s ++ [':', '/', '/'] ++ h ++ (if path = [] then ['/'] else path) ++ _ ++ _) = _
  have h1 : lowerList [':', '/', '/'] = [':', '/', '/'] := by decide
  have h2 : lowerList (if path = [] then ['/'] else path) =
      (if lowerList path = [] then ['/'] else lowerList path) := by
    by_cases hp : path = []
    · rw [if_pos hp, if_pos (by simp [hp, lowerList])]
      decide
    · rw [if_neg hp, if_neg (by simpa [lowerList, List.map_eq_nil_iff] using hp)]
  have h3 : lowerList (match q with | some x => '?' :: x | none => []) =
      (match q.map lowerList with | some x => '?' :: x | none => []) := by
    rcases q with _ | x
    · rfl
    · show lowerList ('?' :: x) = '?' :: lowerList x
      show Char.toLower '?' :: _ = _
      rw [show Char.toLower '?' = '?' from by decide]
      rfl
  have h4 : lowerList (match f with | some x => '#' :: x | none => []) =
      (match f.map lowerList with | some x => '#' :: x | none => []) := by
    rcases f with _ | x
    · rfl
    · show lowerList ('#' :: x) = '#' :: lowerList x
      show Char.toLower '#' :: _ = _
      rw [show Char.toLower '#' = '#' from by decide]
      rfl
  rw [lowerList_append, lowerList_append, lowerList_append, lowerList_append,
    lowerList_append, h1, h2, h3, h4]
  rfl

/-- A record is fully lower-cased when componentwise lower-casing fixes
it. -/
def Lowered (p : UrlParts) : Prop := lowerParts p = p

theorem lowerParts_lowered (p : UrlParts) : Lowered (lowerParts p) := by
  rcases p with ⟨s, h, path, q, f⟩
  unfold Lowered lowerParts
  simp only [UrlParts.mk.injEq]
  refine ⟨lowerList_idem s, lowerList_idem h, lowerList_idem path, ?_, ?_⟩
  · rcases q with _ | x
    · rfl
    · show some (lowerList (lowerList x)) = some (lowerList x)
      rw [lowerList_idem]
  · rcases f with _ | x
    · rfl
    · show some (lowerList (lowerList x)) = some (lowerList x)
      rw [lowerList_idem]

theorem lowered_scheme {p : UrlParts} (h : Lowered p) : lowerList p.scheme = p.scheme :=
  congrArg UrlParts.scheme h

theorem lowered_host {p : UrlParts} (h : Lowered p) : lowerList p.host = p.host :=
  congrArg UrlParts.host h

theorem lowered_path {p : UrlParts} (h : Lowered p) : lowerList p.path = p.path :=
  congrArg UrlParts.path h

theorem lowered_query {p : UrlParts} (h : Lowered p) : p.query.map lowerList = p.query :=
  congrArg UrlParts.query h

theorem lowered_frag {p : UrlParts} (h : Lowered p) : p.frag.map lowerList = p.frag :=
  congrArg UrlParts.frag h

theorem wf_lowerParts {p : UrlParts} (hwf : WFParts p) : WFParts (lowerParts p) := by
  obtain ⟨hs1, hs2, hh1, hh2, hp1, hp2, hq1⟩ := hwf
  refine ⟨?_, ?_, ?_, ?_, ?_, ?_, ?_⟩
  · show lowerList p.scheme ≠ []
    simpa [lowerList, List.map_eq_nil_iff] using hs1
  · show (lowerList p.scheme).all isSchemeChar = true
    rw [List.all_eq_true] at hs2 ⊢
    intro c hc
    simp only [lowerList, List.mem_map] at hc
    obtain ⟨d, hd, hdc⟩ := hc
    exact hdc ▸ isSchemeChar_toLower (hs2 d hd)
  · show lowerList p.host ≠ []
    simpa [lowerList, List.map_eq_nil_iff] using hh1
  · show ∀ c ∈ lowerList p.host, hostStop c = false
    intro c hc
    simp only [lowerList, List.mem_map] at hc
    obtain ⟨d, hd, hdc⟩ := hc
    subst hdc
    rw [Bool.eq_false_iff]
    intro hcontra
    have hcd := hostStop_of_toLower hcontra
    rw [hh2 d hd] at hcd
    cases hcd
  · show ∀ c ∈ lowerList p.path, pathStop c = false
    intro c hc
    simp only [lowerList, List.mem_map] at hc
    obtain ⟨d, hd, hdc⟩ := hc
    subst hdc
    rw [Bool.eq_false_iff]
    intro hcontra
    have hcd := pathStop_of_toLower hcontra
    rw [hp1 d hd] at hcd
    cases hcd
  · show lowerList p.path = [] ∨ (lowerList p.path).head? = some '/'
    rcases hp2 with hnil | hhead
    · exact Or.inl (by simp [hnil, lowerList])
    · match hp : p.path with
      | [] => exact Or.inl (by simp [lowerList])
      | c :: t =>
        rw [hp] at hhead
        simp only [List.head?_cons, Option.some.injEq] at hhead
        subst hhead
        refine Or.inr ?_
        show (Char.toLower '/' :: lowerList t).head? = some '/'
        rw [show Char.toLower '/' = '/' from by decide]
        rfl
  · show ∀ q, (lowerParts p).query = some q → '#' ∉ q
    intro q hq
    rcases hpq : p.query with _ | q0
    · rw [show (lowerParts p).query = p.query.map lowerList from rfl, hpq] at hq
      cases hq
    · rw [show (lowerParts p).query = p.query.map lowerList from rfl, hpq] at hq
      have hq2 : some (lowerList q0) = some q := hq
      injection hq2 with hq3
      subst hq3
      intro hc
      simp only [lowerList, List.mem_map] at hc
      obtain ⟨d, hd, hdc⟩ := hc
      have hdd : d = '#' := (toLower_eq_low_iff (by decide)).mp hdc
      exact hq1 q0 hpq (hdd ▸ hd)


/-- Serialising does not distinguish an empty path from `/`. -/
theorem ser_fixPath (s h : List Char) (path : List Char) (q f : Option (List Char)) :
    serializeParts ⟨s, h, fixPath path, q, f⟩ = serializeParts ⟨s, h, path, q, f⟩ := by
  by_cases hp : path = []
  · subst hp
    rfl
  · rw [show fixPath path = path from by simp [fixPath, hp]]

/-- `lowerParts` fixes the reparse of a lowered record. -/
theorem lowered_fixRecord {p : UrlParts} (hlow : Lowered p) :
    Lowered (⟨p.scheme, p.host, fixPath p.path, p.query, p.frag⟩ : UrlParts) := by
  unfold Lowered lowerParts
  simp only [UrlParts.mk.injEq]
  refine ⟨lowered_scheme hlow, lowered_host hlow, ?_, lowered_query hlow, lowered_frag hlow⟩
  by_cases hp : p.path = []
  · rw [show fixPath p.path = ['/'] from by simp [fixPath, hp]]
    decide
  · rw [show fixPath p.path = p.path from by simp [fixPath, hp]]
    exact lowered_path hlow

/-- Normalising a serialised, lowered, well-formed record only strips
the trailing slash. -/
theorem normalize_stable {p : UrlParts} (hwf : WFParts p) (hlow : Lowered p) :
    normalizeUrl ⟨serializeParts p⟩ = ⟨stripTrailingSlash (serializeParts p)⟩ := by
  unfold normalizeUrl
  rw [show parseUrl ⟨serializeParts p⟩ =
      some ⟨lowerList p.scheme, lowerList p.host, fixPath p.path, p.query, p.frag⟩ from
    parseUrl_serialize hwf]
  have hrec : (⟨lowerList p.scheme, lowerList p.host, fixPath p.path, p.query, p.frag⟩ : UrlParts) =
      ⟨p.scheme, p.host, fixPath p.path, p.query, p.frag⟩ := by
    rw [lowered_scheme hlow, lowered_host hlow]
  rw [hrec]
  simp only []
  have hlow2 := lowered_fixRecord hlow
  rw [lower_serialize, hlow2, ser_fixPath]

theorem takeWhile_all {α : Type} {p : α → Bool} {l : List α}
    (h : ∀ a ∈ l, p a = true) : l.takeWhile p = l := by
  induction l with
  | nil => rfl
  | cons x xs ih =>
    rw [List.takeWhile_cons, if_pos (h x (by simp)), ih (fun a ha => h a (by simp [ha]))]

theorem dropWhile_all {α : Type} {p : α → Bool} {l : List α}
    (h : ∀ a ∈ l, p a = true) : l.dropWhile p = [] := by
  induction l with
  | nil => rfl
  | cons x xs ih =>
    rw [List.dropWhile_cons, if_pos (h x (by simp)), ih (fun a ha => h a (by simp [ha]))]

theorem strip_id {cs : List Char} (h : cs.getLast? ≠ some '/') :
    stripTrailingSlash cs = cs := by
  unfold stripTrailingSlash
  rw [if_neg h]

theorem strip_concat (cs : List Char) : stripTrailingSlash (cs ++ ['/']) = cs := by
  unfold stripTrailingSlash
  rw [if_pos (List.getLast?_concat cs), List.dropLast_concat]

/-- Parsing `scheme://host` with no path at all. -/
theorem parseUrl_hostonly (scheme host : List Char)
    (hs1 : scheme ≠ []) (hs2 : scheme.all isSchemeChar = true)
    (hh1 : host ≠ []) (hh2 : ∀ c ∈ host, hostStop c = false) :
    parseUrl ⟨scheme ++ ':' :: '/' :: '/' :: host⟩ =
      some ⟨lowerList scheme, lowerList host, [], none, none⟩ := by
  have hcolon : ∀ c ∈ scheme, c ≠ ':' :=
    fun c hc => isSchemeChar_ne_colon (List.all_eq_true.mp hs2 c hc)
  have hh2' : ∀ c ∈ host, (!hostStop c) = true := by
    intro c hc
    rw [Bool.not_eq_true']
    exact hh2 c hc
  unfold parseUrl
  rw [show (⟨scheme ++ ':' :: '/' :: '/' :: host⟩ : String).data =
    scheme ++ ':' :: '/' :: '/' :: host from rfl]
  rw [splitSchemeRest_exact _ hcolon]
  simp only []
  rw [if_pos ⟨hs1, hs2⟩, takeWhile_all hh2']
  rw [if_pos hh1, dropWhile_all hh2']
  rfl

theorem getLast?_cons_or {α : Type} (a : α) (l : List α) :
    (a :: l).getLast? = l.getLast?.or (some a) := by
  rw [show a :: l = [a] ++ l from rfl, List.getLast?_append]
  rfl

/-- Normalising `scheme://host` (already lowered) is the identity. -/
theorem normalize_hostonly {L : UrlParts} (hwf : WFParts L) (hlow : Lowered L) :
    normalizeUrl ⟨L.scheme ++ ':' :: '/' :: '/' :: L.host⟩ =
      ⟨L.scheme ++ ':' :: '/' :: '/' :: L.host⟩ := by
  unfold normalizeUrl
  rw [parseUrl_hostonly L.scheme L.host hwf.1 hwf.2.1 hwf.2.2.1 hwf.2.2.2.1]
  simp only []
  rw [lowered_scheme hlow, lowered_host hlow]
  have hl2 : Lowered (⟨L.scheme, L.host, [], none, none⟩ : UrlParts) := by
    unfold Lowered lowerParts
    simp only [UrlParts.mk.injEq]
    exact ⟨lowered_scheme hlow, lowered_host hlow, rfl, rfl, rfl⟩
  rw [lower_serialize, hl2]
  have hser : serializeParts ⟨L.scheme, L.host, [], none, none⟩ =
      (L.scheme ++ ':' :: '/' :: '/' :: L.host) ++ ['/'] := by
    show L.scheme ++ [':', '/', '/'] ++ L.host ++ ['/'] ++ [] ++ [] = _
    simp [List.append_assoc]
  rw [hser, strip_concat]

theorem dropLast_append_ne {α : Type} (l₁ : List α) {l₂ : List α} (h : l₂ ≠ []) :
    (l₁ ++ l₂).dropLast = l₁ ++ l₂.dropLast := by
  induction l₁ with
  | nil => rfl
  | cons x xs ih =>
    have hne : xs ++ l₂ ≠ [] := by
      intro hcon
      exact h (List.append_eq_nil.mp hcon).2
    rw [List.cons_append, List.dropLast_cons_of_ne_nil hne, ih, List.cons_append]
/-- The central stability lemma: the normalised form of a lowered
well-formed serialisation is a fixed point of `normalizeUrl` whenever
it does not itself end in `/`. -/
theorem normalize_strip_stable {L : UrlParts} (hwf : WFParts L) (hlow : Lowered L)
    (hnot : (stripTrailingSlash (serializeParts L)).getLast? ≠ some '/') :
    normalizeUrl ⟨stripTrailingSlash (serializeParts L)⟩ =
      ⟨stripTrailingSlash (serializeParts L)⟩ := by
  by_cases hend : (serializeParts L).getLast? = some '/'
  case neg =>
    rw [strip_id hend, normalize_stable hwf hlow, strip_id hend]
  case pos =>
    have hstrip : stripTrailingSlash (serializeParts L) = (serializeParts L).dropLast := by
      unfold stripTrailingSlash
      rw [if_pos hend]
    obtain ⟨hs1, hs2, hh1, hh2, hp1, hp2, hq1⟩ := hwf
    rcases L with ⟨s, hh, path, q, f⟩
    simp only [] at hs1 hs2 hh1 hh2 hp1 hp2 hq1 hend hstrip hnot ⊢
    rcases f with _ | fv
    · rcases q with _ | qv
      · -- no query, no fragment: the slash is in the path
        have hser0 : serializeParts ⟨s, hh, path, none, none⟩ =
            (s ++ [':', '/', '/'] ++ hh) ++ (if path = [] then ['/'] else path) := by
          show s ++ [':', '/', '/'] ++ hh ++ (if path = [] then ['/'] else path) ++ [] ++ [] = _
          simp [List.append_assoc]
        have hwfho : WFParts (⟨s, hh, [], none, none⟩ : UrlParts) :=
          ⟨hs1, hs2, hh1, hh2, by simp, Or.inl rfl, fun q hq => by cases hq⟩
        have hlowho : Lowered (⟨s, hh, [], none, none⟩ : UrlParts) := by
          unfold Lowered lowerParts
          simp only [UrlParts.mk.injEq]
          exact ⟨lowered_scheme hlow, lowered_host hlow, rfl, rfl, rfl⟩
        by_cases hpnil : path = []
        · -- path [] serialises as "/": stripping yields scheme://host
          have hser1 : serializeParts ⟨s, hh, path, none, none⟩ =
              (s ++ ':' :: '/' :: '/' :: hh) ++ ['/'] := by
            rw [hser0, if_pos hpnil]
            simp [List.append_assoc]
          rw [hstrip, hser1, List.dropLast_concat]
          exact normalize_hostonly hwfho hlowho
        · have hser1 : serializeParts ⟨s, hh, path, none, none⟩ =
              (s ++ [':', '/', '/'] ++ hh) ++ path := by
            rw [hser0, if_neg hpnil]
          have hdrop : (serializeParts ⟨s, hh, path, none, none⟩).dropLast =
              (s ++ [':', '/', '/'] ++ hh) ++ path.dropLast := by
            rw [hser1, dropLast_append_ne _ hpnil]
          have hp : path = '/' :: path.tail := by
            rcases hp2 with h | h
            · exact absurd h hpnil
            · cases path with
              | nil => exact absurd rfl hpnil
              | cons c t =>
                simp only [List.head?_cons, Option.some.injEq] at h
                rw [h]
                rfl
          by_cases hpd : path.dropLast = []
          · rw [hstrip, hdrop, hpd, List.append_nil]
            have hX : s ++ [':', '/', '/'] ++ hh = s ++ ':' :: '/' :: '/' :: hh := by
              simp [List.append_assoc]
            rw [hX]
            exact normalize_hostonly hwfho hlowho
          · have htl : path.tail ≠ [] := by
              intro h0
              rw [hp, h0] at hpd
              exact hpd rfl
            have hwf2 : WFParts (⟨s, hh, path.dropLast, none, none⟩ : UrlParts) := by
              refine ⟨hs1, hs2, hh1, hh2, ?_, ?_, fun q hq => by cases hq⟩
              · intro c hc
                exact hp1 c ((List.dropLast_sublist path).subset hc)
              · refine Or.inr ?_
                rw [hp, List.dropLast_cons_of_ne_nil htl]
                rfl
            have hlow2 : Lowered (⟨s, hh, path.dropLast, none, none⟩ : UrlParts) := by
              unfold Lowered lowerParts
              simp only [UrlParts.mk.injEq]
              refine ⟨lowered_scheme hlow, lowered_host hlow, ?_, rfl, rfl⟩
              show lowerList path.dropLast = path.dropLast
              have h := lowered_path hlow
              simp only [lowerList] at h ⊢
              rw [List.map_dropLast, h]
            have hser2 : serializeParts ⟨s, hh, path.dropLast, none, none⟩ =
                (s ++ [':', '/', '/'] ++ hh) ++ path.dropLast := by
              show s ++ [':', '/', '/'] ++ hh ++
                (if path.dropLast = [] then ['/'] else path.dropLast) ++ [] ++ [] = _
              rw [if_neg hpd]
              simp [List.append_assoc]
            rw [hstrip, hdrop, ← hser2]
            rw [hstrip, hdrop, ← hser2] at hnot
            exact (normalize_stable hwf2 hlow2).trans (congrArg _ (strip_id hnot))
      · -- a query present, no fragment: the slash ends the query
        have hser1 : serializeParts ⟨s, hh, path, some qv, none⟩ =
            (s ++ [':', '/', '/'] ++ hh ++ (if path = [] then ['/'] else path)) ++ '?' :: qv := by
          show s ++ [':', '/', '/'] ++ hh ++ (if path = [] then ['/'] else path) ++
            ('?' :: qv) ++ [] = _
          simp [List.append_assoc]
        have hqv : qv ≠ [] := by
          intro hqnil
          rw [hser1, hqnil, List.getLast?_concat] at hend
          exact absurd hend (by decide)
        have hdrop : (serializeParts ⟨s, hh, path, some qv, none⟩).dropLast =
            (s ++ [':', '/', '/'] ++ hh ++ (if path = [] then ['/'] else path)) ++
              '?' :: qv.dropLast := by
          rw [hser1, dropLast_append_ne _ (by simp : '?' :: qv ≠ []),
            List.dropLast_cons_of_ne_nil hqv]
        have hwf2 : WFParts (⟨s, hh, path, some qv.dropLast, none⟩ : UrlParts) := by
          refine ⟨hs1, hs2, hh1, hh2, hp1, hp2, ?_⟩
          intro q hq
          injection hq with hq
          subst hq
          intro hc
          exact hq1 qv rfl ((List.dropLast_sublist qv).subset hc)
        have hlow2 : Lowered (⟨s, hh, path, some qv.dropLast, none⟩ : UrlParts) := by
          unfold Lowered lowerParts
          simp only [UrlParts.mk.injEq]
          refine ⟨lowered_scheme hlow, lowered_host hlow, lowered_path hlow, ?_, rfl⟩
          show some (lowerList qv.dropLast) = some qv.dropLast
          have h := lowered_query hlow
          simp only [Option.map_some'] at h
          have h2 := Option.some.inj h
          simp only [lowerList] at h2 ⊢
          rw [List.map_dropLast, h2]
        have hser2 : serializeParts ⟨s, hh, path, some qv.dropLast, none⟩ =
            (s ++ [':', '/', '/'] ++ hh ++ (if path = [] then ['/'] else path)) ++
              '?' :: qv.dropLast := by
          show s ++ [':', '/', '/'] ++ hh ++ (if path = [] then ['/'] else path) ++
            ('?' :: qv.dropLast) ++ [] = _
          simp [List.append_assoc]
        rw [hstrip, hdrop, ← hser2]
        rw [hstrip, hdrop, ← hser2] at hnot
        exact (normalize_stable hwf2 hlow2).trans (congrArg _ (strip_id hnot))
    · -- a fragment present: the slash ends the fragment
      rcases q with _ | qv
      · have hser1 : serializeParts ⟨s, hh, path, none, some fv⟩ =
            (s ++ [':', '/', '/'] ++ hh ++ (if path = [] then ['/'] else path)) ++ '#' :: fv := by
          show s ++ [':', '/', '/'] ++ hh ++ (if path = [] then ['/'] else path) ++ [] ++
            ('#' :: fv) = _
          simp [List.append_assoc]
        have hfv : fv ≠ [] := by
          intro hfnil
          rw [hser1, hfnil, List.getLast?_concat] at hend
          exact absurd hend (by decide)
        have hdrop : (serializeParts ⟨s, hh, path, none, some fv⟩).dropLast =
            (s ++ [':', '/', '/'] ++ hh ++ (if path = [] then ['/'] else path)) ++
              '#' :: fv.dropLast := by
          rw [hser1, dropLast_append_ne _ (by simp : '#' :: fv ≠ []),
            List.dropLast_cons_of_ne_nil hfv]
        have hwf2 : WFParts (⟨s, hh, path, none, some fv.dropLast⟩ : UrlParts) :=
          ⟨hs1, hs2, hh1, hh2, hp1, hp2, fun q hq => by cases hq⟩
        have hlow2 : Lowered (⟨s, hh, path, none, some fv.dropLast⟩ : UrlParts) := by
          unfold Lowered lowerParts
          simp only [UrlParts.mk.injEq]
          refine ⟨lowered_scheme hlow, lowered_host hlow, lowered_path hlow, rfl, ?_⟩
          show some (lowerList fv.dropLast) = some fv.dropLast
          have h := lowered_frag hlow
          simp only [Option.map_some'] at h
          have h2 := Option.some.inj h
          simp only [lowerList] at h2 ⊢
          rw [List.map_dropLast, h2]
        have hser2 : serializeParts ⟨s, hh, path, none, some fv.dropLast⟩ =
            (s ++ [':', '/', '/'] ++ hh ++ (if path = [] then ['/'] else path)) ++
              '#' :: fv.dropLast := by
          show s ++ [':', '/', '/'] ++ hh ++ (if path = [] then ['/'] else path) ++ [] ++
            ('#' :: fv.dropLast) = _
          simp [List.append_assoc]
        rw [hstrip, hdrop, ← hser2]
        rw [hstrip, hdrop, ← hser2] at hnot
        exact (normalize_stable hwf2 hlow2).trans (congrArg _ (strip_id hnot))
      · have hser1 : serializeParts ⟨s, hh, path, some qv, some fv⟩ =
            (s ++ [':', '/', '/'] ++ hh ++ (if path = [] then ['/'] else path) ++
              '?' :: qv) ++ '#' :: fv := by
          show s ++ [':', '/', '/'] ++ hh ++ (if path = [] then ['/'] else path) ++
            ('?' :: qv) ++ ('#' :: fv) = _
          simp [List.append_assoc]
        have hfv : fv ≠ [] := by
          intro hfnil
          rw [hser1, hfnil, List.getLast?_concat] at hend
          exact absurd hend (by decide)
        have hdrop : (serializeParts ⟨s, hh, path, some qv, some fv⟩).dropLast =
            (s ++ [':', '/', '/'] ++ hh ++ (if path = [] then ['/'] else path) ++
              '?' :: qv) ++ '#' :: fv.dropLast := by
          rw [hser1, dropLast_append_ne _ (by simp : '#' :: fv ≠ []),
            List.dropLast_cons_of_ne_nil hfv]
        have hwf2 : WFParts (⟨s, hh, path, some qv, some fv.dropLast⟩ : UrlParts) :=
          ⟨hs1, hs2, hh1, hh2, hp1, hp2, hq1⟩
        have hlow2 : Lowered (⟨s, hh, path, some qv, some fv.dropLast⟩ : UrlParts) := by
          unfold Lowered lowerParts
          simp only [UrlParts.mk.injEq]
          refine ⟨lowered_scheme hlow, lowered_host hlow, lowered_path hlow,
            lowered_query hlow, ?_⟩
          show some (lowerList fv.dropLast) = some fv.dropLast
          have h := lowered_frag hlow
          simp only [Option.map_some'] at h
          have h2 := Option.some.inj h
          simp only [lowerList] at h2 ⊢
          rw [List.map_dropLast, h2]
        have hser2 : serializeParts ⟨s, hh, path, some qv, some fv.dropLast⟩ =
            (s ++ [':', '/', '/'] ++ hh ++ (if path = [] then ['/'] else path) ++
              '?' :: qv) ++ '#' :: fv.dropLast := by
          show s ++ [':', '/', '/'] ++ hh ++ (if path = [] then ['/'] else path) ++
            ('?' :: qv) ++ ('#' :: fv.dropLast) = _
          simp [List.append_assoc]
        rw [hstrip, hdrop, ← hser2]
        rw [hstrip, hdrop, ← hser2] at hnot
        exact (normalize_stable hwf2 hlow2).trans (congrArg _ (strip_id hnot))

/-! ## Further helper lemmas and concrete instances for the claims -/

theorem setAdd_idem (l : List String) (u : String) : setAdd (setAdd l u) u = setAdd l u := by
  by_cases h : l.contains u = true
  · unfold setAdd
    rw [if_pos h, if_pos h]
  · unfold setAdd
    rw [if_neg h]
    rw [if_pos (by simp : (l ++ [u]).contains u = true)]

theorem noteProduct_idem (st : CrawlerSt) (url : String) :
    noteProduct (noteProduct st url) url = noteProduct st url := by
  by_cases h : isLikelyProductUrl url = true
  · have h1 : noteProduct st url = { st with productUrls := setAdd st.productUrls url } := by
      unfold noteProduct
      rw [if_pos h]
    rw [h1]
    unfold noteProduct
    rw [if_pos h]
    rw [show ({ st with productUrls := setAdd st.productUrls url } : CrawlerSt).productUrls =
      setAdd st.productUrls url from rfl, setAdd_idem]
  · have h1 : noteProduct st url = st := by
      unfold noteProduct
      rw [if_neg h]
    rw [h1, h1]

/-- The halt condition with the thresholds of `processQueue`, spelled
out on the three counters. -/
theorem shouldStopCrawling_iff (cs : CrawlState) :
    shouldStopCrawling cs 10 8 5 = true ↔
      (cs.networkErrors ≥ 8 ∨ cs.timeoutErrors ≥ 10 ∨ cs.blockedCount ≥ 5) := by
  unfold shouldStopCrawling
  by_cases h1 : cs.networkErrors ≥ 8
  · simp [h1]
  · rw [if_neg h1]
    by_cases h2 : cs.timeoutErrors ≥ 10
    · simp [h1, h2]
    · rw [if_neg h2]
      by_cases h3 : cs.blockedCount ≥ 5
      · simp [h1, h2, h3]
      · rw [if_neg h3]
        simp [h1, h2, h3]

/-- The query component of a serialised URL: everything after the first
`?`. -/
def afterQuestion : List Char → Option (List Char)
  | [] => none
  | c :: t => if c = '?' then some t else afterQuestion t

theorem afterQuestion_append {A : List Char} (r : List Char) (h : '?' ∉ A) :
    afterQuestion (A ++ '?' :: r) = some r := by
  induction A with
  | nil =>
    show (if '?' = '?' then some r else afterQuestion r) = some r
    rw [if_pos rfl]
  | cons a as ih =>
    show (if a = '?' then some (as ++ '?' :: r) else afterQuestion (as ++ '?' :: r)) = some r
    rw [if_neg (fun hcon => h (by rw [← hcon]; exact List.mem_cons_self a as)),
      ih (fun hcon => h (List.mem_cons_of_mem a hcon))]

/-- Nothing before the query of a well-formed URL can lower-case to
`?`. -/
theorem no_question_lower {p : UrlParts} (hwf : WFParts p) :
    '?' ∉ lowerList (p.scheme ++ [':', '/', '/'] ++ p.host ++ fixPath p.path) := by
  obtain ⟨hs1, hs2, hh1, hh2, hp1, hp2, hq1⟩ := hwf
  intro hmem
  simp only [lowerList] at hmem
  obtain ⟨d, hd, hdl⟩ := List.mem_map.mp hmem
  have hdq : d = '?' := by
    have h63 : ('?' : Char).toNat < 65 := by decide
    exact (toLower_eq_low_iff h63).mp hdl
  subst hdq
  rcases List.mem_append.mp hd with hd | hd
  · rcases List.mem_append.mp hd with hd | hd
    · rcases List.mem_append.mp hd with hd | hd
      · have := List.all_eq_true.mp hs2 _ hd
        exact absurd this (by decide)
      · have hno : ('?' : Char) ∈ [':', '/', '/'] → False := by decide
        exact hno hd
    · exact absurd (hh2 _ hd) (by decide)
  · unfold fixPath at hd
    split at hd
    · have hno : ('?' : Char) ∈ ['/'] → False := by decide
      exact hno hd
    · exact absurd (hp1 _ hd) (by decide)

/-- The normalised form of a URL carrying a query (and no fragment)
keeps the whole query, lower-cased, after the `?`. -/
theorem normalize_query_form {u : String} {p : UrlParts} {q0 : List Char}
    (hp : parseUrl u = some p) (hq : p.query = some q0) (hf : p.frag = none)
    (hqn : q0 ≠ []) (hql : (lowerList q0).getLast? ≠ some '/') :
    (normalizeUrl u).data =
      lowerList (p.scheme ++ [':', '/', '/'] ++ p.host ++ fixPath p.path) ++
        '?' :: lowerList q0 := by
  have hwf := (parseUrl_wf hp).1
  obtain ⟨s, hh, path, qO, fO⟩ := p
  simp only [] at hq hf ⊢
  subst hq
  subst hf
  have hnu : normalizeUrl u =
      ⟨stripTrailingSlash (lowerList (serializeParts ⟨s, hh, path, some q0, none⟩))⟩ := by
    unfold normalizeUrl
    rw [hp]
  rw [hnu]
  show stripTrailingSlash (lowerList (serializeParts ⟨s, hh, path, some q0, none⟩)) = _
  have hser : serializeParts ⟨s, hh, path, some q0, none⟩ =
      (s ++ [':', '/', '/'] ++ hh ++ fixPath path) ++ '?' :: q0 := by
    show s ++ [':', '/', '/'] ++ hh ++ (if path = [] then ['/'] else path) ++
      ('?' :: q0) ++ [] = _
    rw [show (if path = [] then ['/'] else path) = fixPath path from rfl]
    simp [List.append_assoc]
  rw [hser, lowerList_append]
  have hq2 : lowerList ('?' :: q0) = '?' :: lowerList q0 := by
    show Char.toLower '?' :: lowerList q0 = '?' :: lowerList q0
    rw [show Char.toLower '?' = '?' from by decide]
  rw [hq2]
  apply strip_id
  have hlq : lowerList q0 ≠ [] := by
    intro hcon
    exact hqn (List.map_eq_nil_iff.mp hcon)
  obtain ⟨x, hx⟩ : ∃ x, (lowerList q0).getLast? = some x := by
    cases hc : (lowerList q0).getLast? with
    | none => exact absurd (List.getLast?_eq_none_iff.mp hc) hlq
    | some y => exact ⟨y, rfl⟩
  intro hcon
  rw [List.getLast?_append, getLast?_cons_or, hx] at hcon
  simp only [Option.or_some] at hcon
  exact hql (hx.trans hcon)

/-- `normalizeUrl` is a fixed point on its own output whenever that
output does not end in a slash. -/
theorem normalizeUrl_restable {u : String} {p : UrlParts} (hp : parseUrl u = some p)
    (hnot : (normalizeUrl u).data.getLast? ≠ some '/') :
    normalizeUrl (normalizeUrl u) = normalizeUrl u := by
  have hnu : normalizeUrl u = ⟨stripTrailingSlash (serializeParts (lowerParts p))⟩ := by
    unfold normalizeUrl
    rw [hp]
    simp only []
    rw [lower_serialize]
  rw [hnu] at hnot ⊢
  exact normalize_strip_stable (wf_lowerParts (parseUrl_wf hp).1) (lowerParts_lowered p) hnot

/-- Modelled from the spec: `isProductUrl(url, patterns)` as the spec
describes it — parse the URL, lower-case its path, accept when the path
contains one of the generic identifiers `product`, `item`, `pd`,
`details`, `buy`, or when the path matches a pattern of `patterns`;
invalid URLs are never product URLs. -/
def isProductUrlSpec (u : String) (patterns : List ProductUrlPattern) : Bool :=
  match parseUrl u with
  | none => false
  | some p =>
    let path := lowerList p.path
    hasSub "product".data path || hasSub "item".data path ||
    hasSub "pd".data path || hasSub "details".data path ||
    hasSub "buy".data path ||
    patterns.any fun pat => pat.pattern path

/-! ## Concrete instances used by the claim witnesses -/

/-- A browser-mode configuration (`maxDepth = 3`). -/
def cfgC2 : CrawlerConfig := ⟨5, 3, 0, "ua", 30000, "./output", true⟩

/-- An Axios-mode configuration. -/
def cfgAx : CrawlerConfig := ⟨5, 3, 0, "ua", 30000, "./output", false⟩

/-- A network that times out twice for every URL and then succeeds. -/
def oracleC2 : FetchOracle := fun _ n =>
  if n < 2 then .error "navigation timeout" else .ok ["/product/abc", "/about"]

/-- A network on which every fetch fails. -/
def oracleFail : FetchOracle := fun _ _ => .error "net::ERR_CONNECTION_REFUSED"

/-- A browser whose launch always fails. -/
def launchFail : Nat → Except String Unit := fun _ =>
  .error "Failed to launch browser after 3 attempts"

/-- The seed item of the `oracleC2` scenario. -/
def itemC2 : CrawlQueueItem := ⟨"https://a.com", 0, none⟩

/-- The links `fetchLinksWithBrowser` returns on the third attempt of
the `oracleC2` scenario. -/
def linksC2 : List String := ["https://a.com/product/abc", "https://a.com/about"]

/-- A state whose `blockedCount` has reached the halt threshold. -/
def stC4 : CrawlerSt :=
  { initialSt "https://a.com" with crawlState := { initCrawlState with blockedCount := 5 } }

/-! ## The claims -/

/-- C1: in every run the dispatched fetches have pairwise distinct
canonical URLs — `processQueue` skips an item whose normalised URL is
already visited and marks the normalised URL visited in the same
synchronous dispatch step, before the fetch task runs; casing and a
trailing slash do not defeat the dedup. -/
theorem claim_C1 (cfg : CrawlerConfig) (oracle : FetchOracle) (domain : String)
    (maxUrlsToCrawl fuel : Nat) :
    ((crawlLoop cfg oracle domain maxUrlsToCrawl fuel (initialSt domain)).1.dispatchedItems.map
        (fun it => normalizeUrl it.url)).Nodup ∧
    (∀ (acc : CrawlerSt × List CrawlQueueItem) (item : CrawlQueueItem),
      acc.1.visitedUrls.contains (normalizeUrl item.url) = true →
        dispatchStep acc item = acc) ∧
    (∀ (acc : CrawlerSt × List CrawlQueueItem) (item : CrawlQueueItem),
      acc.1.visitedUrls.contains (normalizeUrl item.url) = false →
        (dispatchStep acc item).1.visitedUrls = acc.1.visitedUrls ++ [normalizeUrl item.url] ∧
        (dispatchStep acc item).2 = acc.2 ++ [item]) ∧
    normalizeUrl "HTTP://A.com/x" = normalizeUrl "http://a.com/x/" := by
  refine ⟨?_, ?_, ?_, by decide⟩
  · obtain ⟨hmap, hnodup, _, _, _⟩ :=
      crawlLoop_inv fuel (initialSt domain) (inv_initial domain cfg.maxDepth)
    rw [← hmap]
    exact hnodup
  · intro acc item h
    unfold dispatchStep
    rw [if_pos h]
  · intro acc item h
    unfold dispatchStep
    rw [if_neg (by simpa using h)]
    exact ⟨rfl, rfl⟩

/-- C2 (amended): a fetch that fails with a Timeout-classified error
twice and succeeds on the third attempt resolves after exactly three
attempts with backoff sleeps of 1 and 2 seconds, and the item's children
are processed from the successful links — but `timeoutErrors` is left
unchanged (handleCrawlError only runs for a finally-rejected item), not
set to 2. -/
theorem claim_C2 (cfg : CrawlerConfig) (oracle : FetchOracle) (domain : String)
    (item : CrawlQueueItem) (st : CrawlerSt) (e0 e1 : String) (links : List String)
    (hd : ¬item.depth ≥ cfg.maxDepth)
    (h0 : fetchLinks cfg oracle item.url 0 = .error e0)
    (ht0 : classifyError e0 = ErrKind.timeout)
    (h1 : fetchLinks cfg oracle item.url 1 = .error e1)
    (ht1 : classifyError e1 = ErrKind.timeout)
    (h2 : fetchLinks cfg oracle item.url 2 = .ok links) :
    processUrl cfg oracle domain item 0 st =
      ⟨attemptSuccess cfg domain (noteProduct st item.url) item links, .ok (), [1000, 2000], 3⟩ ∧
    (processUrl cfg oracle domain item 0 st).st.crawlState.timeoutErrors =
      st.crawlState.timeoutErrors := by
  have hr0 : shouldRetry e0 0 2 = true := by
    unfold shouldRetry
    rw [(classifyError_timeout_iff e0).mp ht0]
    decide
  have hr1 : shouldRetry e1 1 2 = true := by
    unfold shouldRetry
    rw [(classifyError_timeout_iff e1).mp ht1]
    decide
  have hnp2 : noteProduct (noteProduct st item.url) item.url = noteProduct st item.url :=
    noteProduct_idem st item.url
  have e2' : processUrlGo cfg oracle domain item 0 2 (noteProduct st item.url) =
      ⟨attemptSuccess cfg domain (noteProduct st item.url) item links, .ok (), [], 1⟩ := by
    rw [processUrlGo, if_neg hd, h2]
    simp only []
    rw [hnp2]
  have e1' : processUrlGo cfg oracle domain item 1 1 (noteProduct st item.url) =
      ⟨attemptSuccess cfg domain (noteProduct st item.url) item links, .ok (), [2000], 2⟩ := by
    rw [processUrlGo, if_neg hd, h1]
    simp only []
    rw [hr1]
    show (⟨(processUrlGo cfg oracle domain item 0 2
              (noteProduct (noteProduct st item.url) item.url)).st,
          (processUrlGo cfg oracle domain item 0 2
              (noteProduct (noteProduct st item.url) item.url)).res,
          2 ^ 1 * 1000 ::
            (processUrlGo cfg oracle domain item 0 2
                (noteProduct (noteProduct st item.url) item.url)).delays,
          (processUrlGo cfg oracle domain item 0 2
              (noteProduct (noteProduct st item.url) item.url)).attempts + 1⟩ :
        ProcResult) = _
    rw [hnp2, e2']
    rfl
  have e0' : processUrl cfg oracle domain item 0 st =
      ⟨attemptSuccess cfg domain (noteProduct st item.url) item links, .ok (), [1000, 2000], 3⟩ := by
    show processUrlGo cfg oracle domain item 2 0 st = _
    rw [processUrlGo, if_neg hd, h0]
    simp only []
    rw [hr0]
    show (⟨(processUrlGo cfg oracle domain item 1 1 (noteProduct st item.url)).st,
          (processUrlGo cfg oracle domain item 1 1 (noteProduct st item.url)).res,
          2 ^ 0 * 1000 ::
            (processUrlGo cfg oracle domain item 1 1 (noteProduct st item.url)).delays,
          (processUrlGo cfg oracle domain item 1 1 (noteProduct st item.url)).attempts + 1⟩ :
        ProcResult) = _
    rw [e1']
    rfl
  obtain ⟨_, _, _, _, _, ht, _, _, _, _⟩ := processUrl_shape cfg oracle domain item 0 st
  exact ⟨e0', ht⟩

/-- C2: the spec's Scenario 2 does not hold of the code — after two
Timeout failures and a third successful attempt the item is processed
and its children dispatched, but `timeoutErrors` is `0`, not `2`. -/
theorem claim_C2_counterexample :
    (processUrl cfgC2 oracleC2 "https://a.com" itemC2 0 (initialSt "https://a.com")).res =
      .ok () ∧
    (processUrl cfgC2 oracleC2 "https://a.com" itemC2 0 (initialSt "https://a.com")).attempts = 3 ∧
    (processUrl cfgC2 oracleC2 "https://a.com" itemC2 0
        (initialSt "https://a.com")).delays = [1000, 2000] ∧
    (⟨"https://a.com/product/abc", 1, some "https://a.com"⟩ : CrawlQueueItem) ∈
      (processUrl cfgC2 oracleC2 "https://a.com" itemC2 0 (initialSt "https://a.com")).st.urlQueue ∧
    (processUrl cfgC2 oracleC2 "https://a.com" itemC2 0
        (initialSt "https://a.com")).st.crawlState.timeoutErrors = 0 ∧
    ¬(processUrl cfgC2 oracleC2 "https://a.com" itemC2 0
        (initialSt "https://a.com")).st.crawlState.timeoutErrors = 2 := by
  refine ⟨rfl, rfl, rfl, by decide, rfl, by decide⟩

theorem claim_C2_witness :
    fetchLinks cfgC2 oracleC2 "https://a.com" 0 = .error "navigation timeout" ∧
    fetchLinks cfgC2 oracleC2 "https://a.com" 2 = .ok linksC2 ∧
    (processUrl cfgC2 oracleC2 "https://a.com" itemC2 0 (initialSt "https://a.com") =
        ⟨attemptSuccess cfgC2 "https://a.com"
            (noteProduct (initialSt "https://a.com") itemC2.url) itemC2 linksC2,
          .ok (), [1000, 2000], 3⟩ ∧
      (processUrl cfgC2 oracleC2 "https://a.com" itemC2 0
          (initialSt "https://a.com")).st.crawlState.timeoutErrors =
        (initialSt "https://a.com").crawlState.timeoutErrors) :=
  ⟨rfl, rfl,
    claim_C2 cfgC2 oracleC2 "https://a.com" itemC2 (initialSt "https://a.com")
      "navigation timeout" "navigation timeout" linksC2
      (by decide) rfl rfl rfl rfl rfl⟩

/-- C3: every dispatched item of every reachable loop state has depth
at most `maxDepth`; `processUrl` enqueues children only at
`depth + 1` and only when the item's depth is strictly below
`maxDepth`; the seed enters at depth 0. -/
theorem claim_C3 (cfg : CrawlerConfig) (oracle : FetchOracle) (domain : String)
    (maxUrlsToCrawl fuel : Nat) (item : CrawlQueueItem) (st : CrawlerSt) :
    (∀ it ∈ (crawlLoop cfg oracle domain maxUrlsToCrawl fuel
        (initialSt domain)).1.dispatchedItems, it.depth ≤ cfg.maxDepth) ∧
    (∀ it ∈ (processUrl cfg oracle domain item 0 st).st.urlQueue,
      it ∈ st.urlQueue ∨ (it.depth = item.depth + 1 ∧ item.depth < cfg.maxDepth)) ∧
    (initialSt domain).urlQueue = [⟨domain, 0, none⟩] := by
  refine ⟨?_, ?_, rfl⟩
  · obtain ⟨_, _, _, hdisp, _⟩ :=
      crawlLoop_inv fuel (initialSt domain) (inv_initial domain cfg.maxDepth)
    exact hdisp
  · obtain ⟨_, _, _, _, _, _, _, _, h9, _⟩ := processUrl_shape cfg oracle domain item 0 st
    intro it hit
    rcases h9 it hit with h | h
    · exact Or.inl h
    · exact Or.inr ⟨h.1, by omega⟩

/-- C4: once a health counter is saturated
(`networkErrors ≥ 8 ∨ timeoutErrors ≥ 10 ∨ blockedCount ≥ 5`) the halt
condition holds, the loop — which evaluates it before each batch —
dequeues no further batch and returns the state unchanged with the
`aborted` stop reason (when the `while` guard alone would have
continued), and the condition still holds after any batch, since the
counters never decrease. -/
theorem claim_C4 (cfg : CrawlerConfig) (oracle : FetchOracle) (domain : String)
    (maxUrlsToCrawl fuel : Nat) (st : CrawlerSt)
    (h : st.crawlState.networkErrors ≥ 8 ∨ st.crawlState.timeoutErrors ≥ 10 ∨
      st.crawlState.blockedCount ≥ 5) :
    shouldStopCrawling st.crawlState 10 8 5 = true ∧
    (crawlLoop cfg oracle domain maxUrlsToCrawl fuel st).1 = st ∧
    (¬(st.urlQueue.length = 0 ∨ st.visitedUrls.length ≥ maxUrlsToCrawl) → fuel ≠ 0 →
      (crawlLoop cfg oracle domain maxUrlsToCrawl fuel st).2 = StopReason.aborted) ∧
    shouldStopCrawling (crawlBody cfg oracle domain st).crawlState 10 8 5 = true := by
  have hstop : shouldStopCrawling st.crawlState 10 8 5 = true :=
    (shouldStopCrawling_iff st.crawlState).mpr h
  refine ⟨hstop, crawlLoop_halted fuel st hstop, ?_, ?_⟩
  · intro hq hf
    cases fuel with
    | zero => exact absurd rfl hf
    | succ n => rw [crawlLoop, if_neg hq, if_pos hstop]
  · obtain ⟨c1, c2, c3⟩ := crawlBody_counters cfg oracle domain st
    exact shouldStopCrawling_mono c1 c2 c3 hstop

theorem claim_C4_witness :
    (stC4.crawlState.networkErrors ≥ 8 ∨ stC4.crawlState.timeoutErrors ≥ 10 ∨
      stC4.crawlState.blockedCount ≥ 5) ∧
    (shouldStopCrawling stC4.crawlState 10 8 5 = true ∧
      (crawlLoop cfgC2 oracleC2 "https://a.com" 100 1 stC4).1 = stC4 ∧
      (¬(stC4.urlQueue.length = 0 ∨ stC4.visitedUrls.length ≥ 100) → 1 ≠ 0 →
        (crawlLoop cfgC2 oracleC2 "https://a.com" 100 1 stC4).2 = StopReason.aborted) ∧
      shouldStopCrawling (crawlBody cfgC2 oracleC2 "https://a.com" stC4).crawlState 10 8 5 =
        true) :=
  ⟨Or.inr (Or.inr (by decide)),
    claim_C4 cfgC2 oracleC2 "https://a.com" 100 1 stC4 (Or.inr (Or.inr (by decide)))⟩

/-- C5: a `processUrl` item makes between 1 and 3 fetch attempts; the
backoff sleep before retry `i + 1` is exactly `2 ^ i` seconds; every
non-final (retried) attempt failed with a Timeout-classified error, so
Network-, Blocked- or Other-classified failures are never retried at
the item level; a rethrown final error is either not Timeout-classified
or had exhausted the two-retry budget; and `handleCrawlError` records
each failure kind in its own counter. -/
theorem claim_C5 (cfg : CrawlerConfig) (oracle : FetchOracle) (domain : String)
    (item : CrawlQueueItem) (st : CrawlerSt) :
    1 ≤ (processUrl cfg oracle domain item 0 st).attempts ∧
    (processUrl cfg oracle domain item 0 st).attempts ≤ 3 ∧
    (processUrl cfg oracle domain item 0 st).delays =
      (List.range ((processUrl cfg oracle domain item 0 st).attempts - 1)).map
        (fun i => 2 ^ i * 1000) ∧
    (∀ i ∈ List.range ((processUrl cfg oracle domain item 0 st).attempts - 1),
      ∃ e, fetchLinks cfg oracle item.url i = .error e ∧ classifyError e = ErrKind.timeout) ∧
    (∀ e, (processUrl cfg oracle domain item 0 st).res = .error e →
      fetchLinks cfg oracle item.url ((processUrl cfg oracle domain item 0 st).attempts - 1) =
        .error e ∧
      (classifyError e ≠ ErrKind.timeout ∨
        (processUrl cfg oracle domain item 0 st).attempts - 1 ≥ 2)) ∧
    (∀ (st' : CrawlerSt) (e : String),
      (handleCrawlError st' e).crawlState.lastError = some e ∧
      (handleCrawlError st' e).crawlState.timeoutErrors =
        st'.crawlState.timeoutErrors + (if classifyError e = ErrKind.timeout then 1 else 0) ∧
      (handleCrawlError st' e).crawlState.networkErrors =
        st'.crawlState.networkErrors + (if classifyError e = ErrKind.network then 1 else 0) ∧
      (handleCrawlError st' e).crawlState.blockedCount =
        st'.crawlState.blockedCount + (if classifyError e = ErrKind.blocked then 1 else 0)) := by
  have hpe : processUrl cfg oracle domain item 0 st =
      processUrlGo cfg oracle domain item 2 0 st := rfl
  obtain ⟨r1, r2, r3, r4, r5⟩ := processUrlGo_retry cfg oracle domain item 2 0 rfl st
  rw [hpe]
  simp only [Nat.zero_add] at r2 r3 r4 r5
  exact ⟨r1, r2, r3, r4, r5, fun st' e => handleCrawlError_classified st' e⟩

/-- C6 (amended): `isLikelyProductUrl` tests its eight patterns against
the whole URL string — there is no parsing, no path extraction and no
`product/item/pd/details/buy` vocabulary, and an invalid URL can match. -/
theorem claim_C6 (u : String) :
    isLikelyProductUrl u = true ↔
      (hasSub "/product/".data u.data = true ∨ hasSub "/products/".data u.data = true ∨
       hasSub "/item/".data u.data = true ∨ hasSub "/p/".data u.data = true ∨
       hasSub "/pd/".data u.data = true ∨ hasSub "/shop/".data u.data = true ∨
       matchPDashDigit u.data = true ∨ matchDpId u.data = true) := by
  show (hasSub "/product/".data u.data || (hasSub "/products/".data u.data ||
    (hasSub "/item/".data u.data || (hasSub "/p/".data u.data ||
    (hasSub "/pd/".data u.data || (hasSub "/shop/".data u.data ||
    (matchPDashDigit u.data || (matchDpId u.data || false)))))))) = true ↔ _
  simp [Bool.or_eq_true]

/-- C6: the spec's `isProductUrl` and the code's classifier disagree —
`https://a.com/buy/x` has `buy` in its path (spec: product) but matches
no code pattern, and the unparsable `ht tp:/bad/product/` (spec: never
a product URL) matches the code's `/product/` pattern on the raw
string. -/
theorem claim_C6_counterexample :
    isProductUrlSpec "https://a.com/buy/x" commonProductUrlPatterns = true ∧
    isLikelyProductUrl "https://a.com/buy/x" = false ∧
    parseUrl "ht tp:/bad/product/" = none ∧
    isLikelyProductUrl "ht tp:/bad/product/" = true := by
  refine ⟨by decide, by decide, by decide, by decide⟩

/-- C7 (amended): `normalizeUrl` removes no query parameter at all —
for any parsed URL with a non-empty query (no fragment, lowered query
not ending in `/`) the entire query string, tracking parameters
included, survives verbatim up to lower-casing after the `?` of the
normalised URL. -/
theorem claim_C7 (u : String) (p : UrlParts) (q0 : List Char)
    (hp : parseUrl u = some p) (hq : p.query = some q0) (hf : p.frag = none)
    (hqn : q0 ≠ []) (hql : (lowerList q0).getLast? ≠ some '/') :
    afterQuestion (normalizeUrl u).data = some (lowerList q0) := by
  rw [normalize_query_form hp hq hf hqn hql]
  exact afterQuestion_append _ (no_question_lower (parseUrl_wf hp).1)

/-- C7: `normalizeUrl` — the only cleaning function of
`url-utils.ts` — keeps a `utm_` tracking parameter: the URL is
returned unchanged, `utm_` still inside. -/
theorem claim_C7_counterexample :
    normalizeUrl "https://a.com/x?utm_source=1&b=2" = "https://a.com/x?utm_source=1&b=2" ∧
    includes (normalizeUrl "https://a.com/x?utm_source=1&b=2") "utm_" = true := by
  refine ⟨by decide, by decide⟩

theorem claim_C7_witness :
    parseUrl "https://A.com/p?B=2" =
      some ⟨"https".data, "a.com".data, "/p".data, some "B=2".data, none⟩ ∧
    afterQuestion (normalizeUrl "https://A.com/p?B=2").data = some (lowerList "B=2".data) :=
  ⟨by decide,
    claim_C7 "https://A.com/p?B=2"
      ⟨"https".data, "a.com".data, "/p".data, some "B=2".data, none⟩ "B=2".data
      (by decide) rfl rfl (by decide) (by decide)⟩

/-- C8 (amended): whenever the browser is not used or initialises
successfully, `start` returns a well-formed `CrawlResult` whose
`totalUrlsCrawled` is the size of the (duplicate-free) visited set and
whose `productUrls` all come from dispatched items classified as
product; but when `useHeadlessBrowser` is set and all three launch
attempts fail, `start` rethrows and no `CrawlResult` is produced. -/
theorem claim_C8 (cfg : CrawlerConfig) (oracle : FetchOracle)
    (launch : Nat → Except String Unit) (domain : String)
    (maxUrlsToCrawl fuel startTime endTime : Nat)
    (hinit : cfg.useHeadlessBrowser = false ∨ initializeBrowser launch = .ok ()) :
    ∃ r, start cfg oracle launch domain maxUrlsToCrawl fuel startTime endTime = .ok r ∧
      r.totalUrlsCrawled =
        (crawlLoop cfg oracle domain maxUrlsToCrawl fuel (initialSt domain)).1.visitedUrls.length ∧
      r.productUrls =
        (crawlLoop cfg oracle domain maxUrlsToCrawl fuel (initialSt domain)).1.productUrls ∧
      (crawlLoop cfg oracle domain maxUrlsToCrawl fuel (initialSt domain)).1.visitedUrls.Nodup ∧
      (∀ u ∈ r.productUrls,
        ∃ it ∈ (crawlLoop cfg oracle domain maxUrlsToCrawl fuel
            (initialSt domain)).1.dispatchedItems,
          it.url = u ∧ isLikelyProductUrl u = true) := by
  have hok : (if cfg.useHeadlessBrowser then initializeBrowser launch else .ok ()) = .ok () := by
    rcases hinit with hb | hl
    · rw [hb]
      rfl
    · cases hb : cfg.useHeadlessBrowser with
      | true => simpa using hl
      | false => rfl
  have hstart : start cfg oracle launch domain maxUrlsToCrawl fuel startTime endTime =
      .ok (saveResults domain startTime endTime
        (crawlLoop cfg oracle domain maxUrlsToCrawl fuel (initialSt domain)).1) := by
    unfold start
    rw [hok]
  obtain ⟨_, hnodup, _, _, hprod⟩ :=
    crawlLoop_inv fuel (initialSt domain) (inv_initial domain cfg.maxDepth)
  exact ⟨_, hstart, rfl, rfl, hnodup, hprod⟩

/-- C8: with `useHeadlessBrowser` set and a browser that never
launches, `start` rethrows the third launch failure — no finalisation,
no `CrawlResult`, contradicting "finalization runs on every exit
path". -/
theorem claim_C8_counterexample :
    cfgC2.useHeadlessBrowser = true ∧
    start cfgC2 oracleC2 launchFail "https://a.com" 100 5 0 9 =
      .error "Failed to launch browser after 3 attempts" := by
  refine ⟨rfl, rfl⟩

theorem claim_C8_witness :
    (cfgAx.useHeadlessBrowser = false ∨ initializeBrowser launchFail = .ok ()) ∧
    (∃ r, start cfgAx oracleFail launchFail "https://a.com" 100 5 0 9 = .ok r ∧
      r.totalUrlsCrawled =
        (crawlLoop cfgAx oracleFail "https://a.com" 100 5
            (initialSt "https://a.com")).1.visitedUrls.length ∧
      r.productUrls =
        (crawlLoop cfgAx oracleFail "https://a.com" 100 5
            (initialSt "https://a.com")).1.productUrls ∧
      (crawlLoop cfgAx oracleFail "https://a.com" 100 5
          (initialSt "https://a.com")).1.visitedUrls.Nodup ∧
      (∀ u ∈ r.productUrls,
        ∃ it ∈ (crawlLoop cfgAx oracleFail "https://a.com" 100 5
            (initialSt "https://a.com")).1.dispatchedItems,
          it.url = u ∧ isLikelyProductUrl u = true)) :=
  ⟨Or.inl rfl,
    claim_C8 cfgAx oracleFail launchFail "https://a.com" 100 5 0 9 (Or.inl rfl)⟩

/-- C9 (amended): `normalizeUrl` is idempotent on every parsable URL
whose normalised form does not end in `/`; idempotence fails in general
only because the single trailing-slash strip can expose a second
slash. -/
theorem claim_C9 (u : String) (p : UrlParts) (hp : parseUrl u = some p)
    (hnot : (normalizeUrl u).data.getLast? ≠ some '/') :
    normalizeUrl (normalizeUrl u) = normalizeUrl u :=
  normalizeUrl_restable hp hnot

/-- C9: `https://a.com//` is a valid URL (it parses), yet
`normalizeUrl` maps it to `https://a.com/` and a second application to
`https://a.com` — idempotence fails on a valid input. -/
theorem claim_C9_counterexample :
    (parseUrl "https://a.com//").isSome = true ∧
    normalizeUrl "https://a.com//" = "https://a.com/" ∧
    normalizeUrl (normalizeUrl "https://a.com//") = "https://a.com" ∧
    ¬normalizeUrl (normalizeUrl "https://a.com//") = normalizeUrl "https://a.com//" := by
  refine ⟨by decide, by decide, by decide, by decide⟩

theorem claim_C9_witness :
    parseUrl "https://A.com/x" =
      some ⟨"https".data, "a.com".data, "/x".data, none, none⟩ ∧
    ¬(normalizeUrl "https://A.com/x").data.getLast? = some '/' ∧
    normalizeUrl (normalizeUrl "https://A.com/x") = normalizeUrl "https://A.com/x" :=
  ⟨by decide, by decide,
    claim_C9 "https://A.com/x" ⟨"https".data, "a.com".data, "/x".data, none, none⟩
      (by decide) (by decide)⟩

/-- C10: with `useHeadlessBrowser = false` every fetch resolves (any
failure is absorbed into an empty link list), so a whole run from the
seed state leaves the `crawlState` counters at their initial zeros,
performs no retry sleep, and can never stop `aborted` — the halt
condition is unreachable on the Axios path. -/
theorem claim_C10 (cfg : CrawlerConfig) (oracle : FetchOracle) (domain : String)
    (maxUrlsToCrawl fuel : Nat) (hb : cfg.useHeadlessBrowser = false) :
    (∀ url attempt, ∃ links, fetchLinks cfg oracle url attempt = .ok links) ∧
    (crawlLoop cfg oracle domain maxUrlsToCrawl fuel (initialSt domain)).1.crawlState =
      initCrawlState ∧
    (crawlLoop cfg oracle domain maxUrlsToCrawl fuel (initialSt domain)).1.retryDelays = [] ∧
    (crawlLoop cfg oracle domain maxUrlsToCrawl fuel (initialSt domain)).2 ≠
      StopReason.aborted := by
  obtain ⟨a1, a2, a3⟩ := axios_crawlLoop hb oracle domain maxUrlsToCrawl fuel (initialSt domain)
  refine ⟨fun url attempt => axios_fetch hb oracle url attempt, a1, a2, fun hab => ?_⟩
  have habort := a3 hab
  rw [show (initialSt domain).crawlState = initCrawlState from rfl] at habort
  exact absurd habort (by decide)

theorem claim_C10_witness :
    cfgAx.useHeadlessBrowser = false ∧
    ((∀ url attempt, ∃ links, fetchLinks cfgAx oracleFail url attempt = .ok links) ∧
      (crawlLoop cfgAx oracleFail "https://a.com" 100 5
          (initialSt "https://a.com")).1.crawlState = initCrawlState ∧
      (crawlLoop cfgAx oracleFail "https://a.com" 100 5
          (initialSt "https://a.com")).1.retryDelays = [] ∧
      (crawlLoop cfgAx oracleFail "https://a.com" 100 5 (initialSt "https://a.com")).2 ≠
        StopReason.aborted) :=
  ⟨rfl, claim_C10 cfgAx oracleFail "https://a.com" 100 5 rfl⟩

end ShoppinCrawler







